import Mathlib

/-!
# Verification of the numflux input state machine

A shallow embedding of the core of the numflux numeric-input widget:
the Value Engine (`src/core/numpad.ts`, `src/utils/validation.utils.ts`)
and the Mask Engine (`mask.utils`).  Strings are modelled as Lean
`String`/`List Char`; JavaScript `number` values that flow through
validation are modelled as exact rationals (`ℚ`); nullable fields are
`Option`s; functions that `throw` return `Except`.
-/

namespace Numflux

/-! ## JavaScript string primitives used by the source -/

/-- Characters stripped by JavaScript `String.prototype.trim` (the common
whitespace characters; the source never feeds exotic Unicode whitespace). -/
def isJsWhitespace (c : Char) : Bool :=
  c = ' ' || c = '\t' || c = '\n' || c = '\r' || c = '\x0b' || c = '\x0c'

/-- `value.trim()` on the character list. -/
def jsTrim (l : List Char) : List Char :=
  ((l.dropWhile isJsWhitespace).reverse.dropWhile isJsWhitespace).reverse

/-- `str.replace(pat, rep)` for a single-character pattern: replace the
first occurrence only (JavaScript `replace` with a string pattern). -/
def jsReplaceFirst (l : List Char) (pat : Char) (rep : List Char) : List Char :=
  match l with
  | [] => []
  | c :: cs => if c = pat then rep ++ cs else c :: jsReplaceFirst cs pat rep

/-- Remove the first occurrence of a character (`str.replace(c, "")`). -/
def removeFirst (l : List Char) (pat : Char) : List Char :=
  jsReplaceFirst l pat []

/-- JavaScript `str.split(sep)` for a single-character separator (the
only shape the engine code splits on: `"."`, `","`, `"/"`). -/
def splitOnChar (sep : Char) : List Char → List (List Char)
  | [] => [[]]
  | c :: cs =>
    if c = sep then [] :: splitOnChar sep cs
    else
      match splitOnChar sep cs with
      | [] => [[c]]
      | p :: ps => (c :: p) :: ps

/-- Auxiliary scanner for the general `jsSplit`: the separator is
`s :: rest` (non-empty), `cur` accumulates the current part reversed.
The fuel is initialised to the input length, which is enough for every
step (each step consumes at least one character); it only exists to make
the recursion structural. -/
def jsSplitGo (s : Char) (rest : List Char) : Nat → List Char → List Char → List (List Char)
  | _, [], cur => [cur.reverse]
  | 0, c :: cs, cur => [cur.reverse ++ c :: cs]
  | fuel + 1, c :: cs, cur =>
    if (s :: rest).isPrefixOf (c :: cs) then
      cur.reverse :: jsSplitGo s rest fuel ((c :: cs).drop (rest.length + 1)) []
    else
      jsSplitGo s rest fuel cs (c :: cur)

/-- JavaScript `str.split(sep)` for an arbitrary separator string.  An
empty separator splits into the individual characters; otherwise split on
each non-overlapping occurrence of the separator, left to right. -/
def jsSplit (l : List Char) (sep : List Char) : List (List Char) :=
  match sep with
  | [] => l.map ([·])
  | s :: rest => jsSplitGo s rest l.length l []

/-! ## The model of JavaScript `Number(string)`

`toNumber` calls `Number(value)` and keeps only finite results.  We model
the finite results of `Number` on decimal literals exactly over `ℚ`:
an optionally signed run of digits with an optional fractional part
(`"12"`, `"-3.5"`, `".5"`, `"7."`), after `trim`-style whitespace removal,
and the empty string (which `Number` maps to `0`).  Every other string
(including `"Infinity"`, exponent and hex notation, and anything with a
stray character) is modelled as a non-finite/NaN result, i.e. `none`.
All strings this program constructs fall inside the modelled grammar or
are visibly non-numeric. -/

/-- Value of a digit list read as a natural number (`[] ↦ 0`). -/
def digitsToNat (l : List Char) : Nat :=
  l.foldl (fun acc c => acc * 10 + (c.toNat - '0'.toNat)) 0

/-- Parse an unsigned decimal literal `digits [. digits]`; `none` when the
string has any other character or is just `"."`. -/
def parseUnsignedDec (l : List Char) : Option ℚ :=
  let intPart := l.takeWhile Char.isDigit
  let rest := l.drop intPart.length
  match rest with
  | [] => if intPart.isEmpty then none else some (digitsToNat intPart : ℚ)
  | r :: frac =>
    if r = '.' then
      if frac.all Char.isDigit ∧ ¬(intPart.isEmpty ∧ frac.isEmpty) then
        some ((digitsToNat intPart : ℚ) + (digitsToNat frac : ℚ) / (10 ^ frac.length : ℚ))
      else none
    else none

/-- Model of JavaScript `Number(value)` restricted to finite results
(see the module comment above): `none` stands for `NaN`/`±Infinity`. -/
def jsNumber (value : String) : Option ℚ :=
  match jsTrim value.data with
  | [] => some 0
  | a :: rest =>
    if a = '-' then (parseUnsignedDec rest).map (fun q => -q)
    else if a = '+' then parseUnsignedDec rest
    else parseUnsignedDec (a :: rest)

/-! ## Configuration and state (`src/types/numpad.ts`) -/

/-- `allowDecimal: boolean | number`. -/
inductive AllowDecimal where
  | bool (v : Bool)
  | num (n : Int)
  deriving DecidableEq, Repr

/-- JavaScript truthiness of an `allowDecimal` value (`false` and `0` are
falsy, every other boolean/number is truthy). -/
def AllowDecimal.truthy : AllowDecimal → Bool
  | .bool v => v
  | .num n => n ≠ 0

/-- `NumpadConfig` after `normalizeConfig` has merged the defaults: every
field is present, with `null`/`undefined` modelled as `none`.  Numeric
bounds are modelled as exact rationals. -/
structure NumpadConfig where
  allowDecimal : AllowDecimal
  allowNegative : Bool
  maxDigits : Option Int
  minDigits : Option Int
  decimalSeparator : String
  minValue : Option ℚ
  maxValue : Option ℚ
  sync : Bool
  mask : Option String

/-- The `DEFAULT_CONFIG` object of `src/core/numpad.ts`. -/
def defaultConfig : NumpadConfig :=
  { allowDecimal := .bool true
    allowNegative := true
    maxDigits := none
    minDigits := none
    decimalSeparator := "."
    minValue := none
    maxValue := none
    sync := false
    mask := none }

/-- `ValidationError` variants (`null` is `Option.none` around this type). -/
inductive ValidationError where
  | minValue
  | maxValue
  | minDigits
  | maxDigits
  deriving DecidableEq, Repr

/-! ## `toNumber` and `validateValue` -/

/-- `toNumber` from `src/utils/validation.utils.ts`: `null` for the empty
string and the lone `"-"`, otherwise `Number(value)` if finite else `null`. -/
def toNumber (value : String) : Option ℚ :=
  if value = "" ∨ value = "-" then none else jsNumber value

/-- `config.bound !== null && config.bound !== undefined && q < config.bound`
for a nullable rational bound. -/
def boundLt (bound : Option ℚ) (q : ℚ) : Bool :=
  match bound with
  | some m => decide (q < m)
  | none => false

/-- `config.bound !== null && config.bound !== undefined && q > config.bound`
for a nullable rational bound. -/
def boundGt (bound : Option ℚ) (q : ℚ) : Bool :=
  match bound with
  | some m => decide (q > m)
  | none => false

/-- `config.bound !== null && config.bound !== undefined && n < config.bound`
for a nullable integer bound against a digit count. -/
def countLt (bound : Option Int) (n : Nat) : Bool :=
  match bound with
  | some m => decide ((n : Int) < m)
  | none => false

/-- `config.bound !== null && config.bound !== undefined && n > config.bound`
for a nullable integer bound against a digit count. -/
def countGt (bound : Option Int) (n : Nat) : Bool :=
  match bound with
  | some m => decide ((n : Int) > m)
  | none => false

/-- `validateValue` from `src/core/numpad.ts` (lines 25–61). -/
def validateValue (value : String) (config : NumpadConfig) : Option ValidationError :=
  if value = "" ∨ value = "-" then none
  else
    match toNumber value with
    | none => none
    | some numericValue =>
      if boundLt config.minValue numericValue then some .minValue
      else if boundGt config.maxValue numericValue then some .maxValue
      else
        -- value.replace(/[-.]/g, "").length : the regex is global, so every
        -- '-' and '.' is removed before counting
        let digitCount := (value.data.filter (fun c => !(c = '-' || c = '.'))).length
        if countLt config.minDigits digitCount then some .minDigits
        else if countGt config.maxDigits digitCount then some .maxDigits
        else none

/-! ## The specification's description of `validateValue` (claim C2)

A second definition following the words of the specification, to be
compared with the embedding of the source above. -/

/-- Digit count as the specification words it for validation: the length
of `value` with every `-` and `.` removed. -/
def specDigitCount (value : String) : Nat :=
  (value.data.filter (fun c => c ≠ '-' ∧ c ≠ '.')).length

/-- `validateValue` as the specification sentence describes it: empty or
lone `-` is valid; a value that does not convert to a finite number is
valid; otherwise check `minValue`, then `maxValue`, then `minDigits`,
then `maxDigits`, in that order. -/
def validateValueSpec (value : String) (config : NumpadConfig) : Option ValidationError :=
  if value = "" then none
  else if value = "-" then none
  else
    match toNumber value with
    | none => none
    | some q =>
      match config.minValue, config.maxValue with
      | some lo, _ =>
        if q < lo then some .minValue else validateValueSpecDigits value config q
      | none, _ => validateValueSpecDigits value config q
where
  /-- The `maxValue` and digit-count cascade of the specification. -/
  validateValueSpecDigits (value : String) (config : NumpadConfig) (q : ℚ) :
      Option ValidationError :=
    match config.maxValue with
    | some hi =>
      if q > hi then some .maxValue else validateValueSpecCount value config
    | none => validateValueSpecCount value config
  /-- The digit-count checks of the specification, `minDigits` first. -/
  validateValueSpecCount (value : String) (config : NumpadConfig) :
      Option ValidationError :=
    let n := specDigitCount value
    match config.minDigits with
    | some lo =>
      if (n : Int) < lo then some .minDigits else validateValueSpecMax value config
    | none => validateValueSpecMax value config
  /-- The final `maxDigits` check of the specification. -/
  validateValueSpecMax (value : String) (config : NumpadConfig) :
      Option ValidationError :=
    let n := specDigitCount value
    match config.maxDigits with
    | some hi => if (n : Int) > hi then some .maxDigits else none
    | none => none

/-! ## `sanitizeValue` and `normalizeLeadingZeros` (`validation.utils.ts`) -/

/-- The regex replace `value.replace(/^0+(?=\d)/, "")`: strip the longest
run of leading zeros that is followed by a digit (all-zero input keeps a
single zero, a zero before a non-digit is kept). -/
def stripLeadingZeros (l : List Char) : List Char :=
  let z := l.takeWhile (· = '0')
  let r := l.drop z.length
  if z.isEmpty then l
  else
    match r.head? with
    | some c => if c.isDigit then r else '0' :: r
    | none => '0' :: r

/-- `stripLeadingZeros` followed by the `|| "0"` fallback of the source
(an empty strip result means the original part was empty or all
zeros). -/
def stripOrZero (l : List Char) : List Char :=
  let s := stripLeadingZeros l
  if s.isEmpty then ['0'] else s

/-- `normalizeLeadingZeros` from `validation.utils.ts` (lines 53–62).
With `hasDecimal`, the value splits at the first `.`; the fractional part
is everything after it (`rest.join(".")` restores interior dots). -/
def normalizeLeadingZeros (l : List Char) (hasDecimal : Bool) : List Char :=
  if l.isEmpty then []
  else if hasDecimal then
    let intPart := l.takeWhile (· ≠ '.')
    let fractional := (l.drop intPart.length).drop 1
    let trimmedInt := stripOrZero intPart
    if fractional.isEmpty then trimmedInt ++ ['.'] else trimmedInt ++ '.' :: fractional
  else stripOrZero l

/-- Membership of a character in `decimalChars = new Set([".", config.decimalSeparator])`. -/
def isDecimalChar (config : NumpadConfig) (c : Char) : Bool :=
  c = '.' || decide (config.decimalSeparator = String.mk [c])

/-- `config.maxDigits !== null && digitCount >= config.maxDigits`
(`undefined` also lets digits through, since `n >= undefined` is false). -/
def maxDigitsReached (config : NumpadConfig) (digitCount : Nat) : Bool :=
  match config.maxDigits with
  | some m => decide ((digitCount : Int) ≥ m)
  | none => false

/-- The accumulator of `sanitizeValue`'s character scan. -/
structure ScanState where
  chars : List Char
  hasDecimal : Bool
  isNegative : Bool
  digitCount : Nat
  deriving Repr

/-- One iteration of the `for (const char of value.trim())` loop of
`sanitizeValue`. -/
def scanStep (config : NumpadConfig) (st : ScanState) (c : Char) : ScanState :=
  if c = '-' && config.allowNegative && !st.isNegative && st.chars.isEmpty then
    { st with isNegative := true }
  else if isDecimalChar config c && config.allowDecimal.truthy && !st.hasDecimal then
    { st with chars := st.chars ++ ['.'], hasDecimal := true }
  else if c.isDigit then
    if maxDigitsReached config st.digitCount then st
    else { st with chars := st.chars ++ [c], digitCount := st.digitCount + 1 }
  else st

/-- The full scan loop of `sanitizeValue`. -/
def scanChars (config : NumpadConfig) : List Char → ScanState → ScanState
  | [], st => st
  | c :: cs, st => scanChars config cs (scanStep config st c)

/-- `sanitizeValue` from `validation.utils.ts` (lines 67–100). -/
def sanitizeValue (value : String) (config : NumpadConfig) : String :=
  let st := scanChars config (jsTrim value.data) ⟨[], false, false, 0⟩
  let unsignedValue := normalizeLeadingZeros st.chars st.hasDecimal
  if unsignedValue.isEmpty then (if st.isNegative then "-" else "")
  else String.mk ((if st.isNegative then ['-'] else []) ++ unsignedValue)

/-- The assembly step at the end of `sanitizeValue` (lines 88–100 of
`validation.utils.ts`), factored out over the final scan state: normalize
the collected characters and re-attach the sign. -/
def assembleSanitized (st : ScanState) : String :=
  let unsignedValue := normalizeLeadingZeros st.chars st.hasDecimal
  if unsignedValue.isEmpty then (if st.isNegative then "-" else "")
  else String.mk ((if st.isNegative then ['-'] else []) ++ unsignedValue)

/-! ## The standard-mode value transforms (`src/core/numpad.ts` 357–409) -/

/-- `parts[i]` of a JavaScript split, `undefined` defaulting to `""`. -/
def splitPart (l : List Char) (sep : Char) (i : Nat) : List Char :=
  (splitOnChar sep l).getD i []

/-- `appendDigit` from `src/core/numpad.ts` (lines 357–385). -/
def appendDigit (current : String) (digit : Nat) (config : NumpadConfig) : String :=
  let isNegative := current.data.head? = some '-'
  let unsigned := if isNegative then current.data.tail else current.data
  let hasDecimal := unsigned.contains '.'
  -- unsigned.replace(".", "").length : non-global replace, first '.' only
  let digitCount := (removeFirst unsigned '.').length
  if maxDigitsReached config digitCount then current
  else if hasDecimal && (match config.allowDecimal with
      | .num n => decide (((splitPart unsigned '.' 1).length : Int) ≥ n)
      | .bool _ => false) then current
  else if unsigned = [] ∨ unsigned = ['0'] then
    let nextUnsigned := if digit = 0 && !hasDecimal then ['0'] else (toString digit).data
    String.mk ((if isNegative then ['-'] else []) ++ nextUnsigned)
  else
    String.mk ((if isNegative then ['-'] else []) ++ unsigned ++ (toString digit).data)

/-- `appendDecimal` from `src/core/numpad.ts` (lines 387–397). -/
def appendDecimal (current : String) (config : NumpadConfig) : String :=
  if !config.allowDecimal.truthy then current
  else
    let isNegative := current.data.head? = some '-'
    let unsigned := if isNegative then current.data.tail else current.data
    if unsigned.contains '.' then current
    else
      let base := if unsigned.isEmpty then ['0'] else unsigned
      String.mk ((if isNegative then ['-'] else []) ++ base ++ ['.'])

/-- `deleteChar` from `src/core/numpad.ts` (lines 399–403). -/
def deleteChar (current : String) : String :=
  if current = "" then current
  else
    let next := current.data.dropLast
    if next = ['-'] then "" else String.mk next

/-- `toggleSign` from `src/core/numpad.ts` (lines 405–409). -/
def toggleSign (current : String) (config : NumpadConfig) : String :=
  if !config.allowNegative then current
  else if current = "" then "-"
  else if current.data.head? = some '-' then String.mk current.data.tail
  else String.mk ('-' :: current.data)

/-! ## The specification's description of the `digit` action (claim C3) -/

/-- The claim's digit count: "counting only the digits in `unsigned`
(separator excluded)". -/
def specUnsignedDigits (unsigned : List Char) : Nat :=
  (unsigned.filter Char.isDigit).length

/-- The claim's fractional-digit count: the characters after the
fractional mark. -/
def specFracCount (unsigned : List Char) : Nat :=
  ((unsigned.dropWhile (· ≠ '.')).drop 1).length

/-- The standard-mode `digit` action as claim C3 words it: reject when
appending would exceed `maxDigits` counting only digits, or when the
fractional part has reached a numeric `allowDecimal` cap; on empty or
`"0"` the new unsigned value is `"0"` for digit 0 and `String(d)`
otherwise; otherwise append; always re-attach the sign. -/
def appendDigitSpecC3 (current : String) (digit : Nat) (config : NumpadConfig) : String :=
  let isNegative := current.data.head? = some '-'
  let unsigned := if isNegative then current.data.tail else current.data
  if (match config.maxDigits with
      | some m => decide ((specUnsignedDigits unsigned : Int) + 1 > m)
      | none => false) then current
  else if unsigned.contains '.' && (match config.allowDecimal with
      | .num n => decide ((specFracCount unsigned : Int) ≥ n)
      | .bool _ => false) then current
  else if unsigned = [] ∨ unsigned = ['0'] then
    let nextUnsigned := if digit = 0 then ['0'] else (toString digit).data
    String.mk ((if isNegative then ['-'] else []) ++ nextUnsigned)
  else
    String.mk ((if isNegative then ['-'] else []) ++ unsigned ++ (toString digit).data)

/-- A canonical current value: after the optional sign, only digits and
at most one `.` (every value the standard-mode reducer produces has this
shape). -/
def wellFormedValue (current : String) : Prop :=
  let unsigned := if current.data.head? = some '-' then current.data.tail else current.data
  (∀ c ∈ unsigned, c.isDigit ∨ c = '.') ∧ unsigned.count '.' ≤ 1

/-- Configuration used to refute claims C3 and C4 as stated: `maxDigits`
is set, everything else is the default. -/
def cexConfigMax4 : NumpadConfig := { defaultConfig with maxDigits := some 4 }

/-- Configuration for the C4 counterexample: `maxDigits = 1`. -/
def cexConfigMax1 : NumpadConfig := { defaultConfig with maxDigits := some 1 }

/-! ## The Mask Engine (`mask.utils`, thousands-separator revision) -/

inductive MaskSegmentType where
  | integer
  | fractional
  | numerator
  | denominator
  deriving DecidableEq, Repr

inductive MaskType where
  | simple
  | fraction
  | decimal
  deriving DecidableEq, Repr

structure MaskSegment where
  type : MaskSegmentType
  length : Nat
  startIndex : Nat
  thousandsSeparators : Option (List Nat) := none
  decimalSeparator : Option Nat := none
  deriving DecidableEq, Repr

structure MaskFormat where
  mask : String
  segments : List MaskSegment
  maskPrefix : String
  maskSuffix : String
  type : MaskType
  totalSlots : Nat
  deriving DecidableEq, Repr

/-- Per-segment edit state.  `segments` is total, with `""` for absent
keys (every lookup in the source is `state.segments[k] || ""`). -/
structure MaskState where
  segments : MaskSegmentType → String
  activeSegment : MaskSegmentType

/-- The `(?:_+\.)*_+` part of `extractPattern`'s regex: starting at a run
of underscores, greedily consume underscores (counting them) and dots
that are immediately followed by another underscore (recording the digit
count at each such dot), stopping at anything else.  Returns the digit
count, the 1-based digit positions after which a dot appeared, and the
unconsumed remainder. -/
def consumePattern : List Char → Nat → List Nat → Nat × List Nat × List Char
  | [], count, seps => (count, seps, [])
  | c :: cs, count, seps =>
    if c = '_' then consumePattern cs (count + 1) seps
    else if c = '.' ∧ cs.head? = some '_' then consumePattern cs count (seps ++ [count])
    else (count, seps, c :: cs)

/-- The result of `extractPattern`. -/
structure ExtractedPattern where
  prefixPart : List Char
  digitLength : Nat
  suffixPart : List Char
  thousandsSeparators : List Nat
  deriving DecidableEq, Repr

/-- `extractPattern` from `mask.utils`: match
`^(.*?)((?:_+\.)*_+)(.*)$` — the lazy prefix runs to the first
underscore, the middle group greedily takes underscore runs joined by
single dots, the suffix is the rest; `none` when there is no underscore. -/
def extractPattern (l : List Char) : Option ExtractedPattern :=
  let pre := l.takeWhile (· ≠ '_')
  let rest := l.drop pre.length
  if rest.isEmpty then none
  else
    let r := consumePattern rest 0 []
    some ⟨pre, r.1, r.2.2, r.2.1⟩

/-- `parseMask` from `mask.utils` (thousands-separator revision,
lines 468–647): `Except.error` models `throw new Error(...)`. -/
def parseMask (mask : String) : Except String MaskFormat :=
  let hasFraction := mask.data.contains '/'
  let hasDecimal := mask.data.contains ','
  if hasFraction && hasDecimal then
    -- Complex case: a decimal numerator over a whole denominator
    let parts := splitOnChar '/' mask.data
    if parts.length ≠ 2 then .error "Fraction mask must have exactly one / separator"
    else
      let decimalParts := splitOnChar ',' (parts.getD 0 [])
      if decimalParts.length ≠ 2 then
        .error "Complex mask: numerator must be a valid decimal format"
      else
        match extractPattern (decimalParts.getD 0 []) with
        | none => .error "Complex mask: numerator integer part must contain underscores"
        | some integerPattern =>
          match extractPattern (decimalParts.getD 1 []) with
          | none => .error "Complex mask: numerator fractional part must contain underscores"
          | some fractionalPattern =>
            match extractPattern (parts.getD 1 []) with
            | none => .error "Complex mask: denominator must contain underscores"
            | some denominatorPattern =>
              let numeratorLength := integerPattern.digitLength + fractionalPattern.digitLength
              .ok
                { mask
                  segments := [
                    { type := .numerator
                      length := numeratorLength
                      startIndex := integerPattern.prefixPart.length
                      thousandsSeparators := some integerPattern.thousandsSeparators
                      decimalSeparator := some integerPattern.digitLength },
                    { type := .denominator
                      length := denominatorPattern.digitLength
                      startIndex := integerPattern.prefixPart.length + numeratorLength + 1
                      thousandsSeparators := some denominatorPattern.thousandsSeparators }]
                  maskPrefix := String.mk integerPattern.prefixPart
                  maskSuffix := String.mk denominatorPattern.suffixPart
                  type := .fraction
                  totalSlots := numeratorLength + denominatorPattern.digitLength }
  else if hasFraction then
    let parts := splitOnChar '/' mask.data
    if parts.length ≠ 2 then .error "Fraction mask must have exactly one / separator"
    else
      match extractPattern (parts.getD 0 []) with
      | none => .error "Invalid fraction mask: numerator must contain underscores"
      | some numeratorPattern =>
        match extractPattern (parts.getD 1 []) with
        | none => .error "Invalid fraction mask: denominator must contain underscores"
        | some denominatorPattern =>
          .ok
            { mask
              segments := [
                { type := .numerator
                  length := numeratorPattern.digitLength
                  startIndex := numeratorPattern.prefixPart.length
                  thousandsSeparators :=
                    if numeratorPattern.thousandsSeparators.isEmpty then none
                    else some numeratorPattern.thousandsSeparators },
                { type := .denominator
                  length := denominatorPattern.digitLength
                  startIndex := numeratorPattern.prefixPart.length
                    + numeratorPattern.digitLength + 1
                  thousandsSeparators :=
                    if denominatorPattern.thousandsSeparators.isEmpty then none
                    else some denominatorPattern.thousandsSeparators }]
              maskPrefix := String.mk numeratorPattern.prefixPart
              maskSuffix := String.mk denominatorPattern.suffixPart
              type := .fraction
              totalSlots := numeratorPattern.digitLength + denominatorPattern.digitLength }
  else if hasDecimal then
    let parts := splitOnChar ',' mask.data
    if parts.length ≠ 2 then .error "Decimal mask must have exactly one , separator"
    else
      match extractPattern (parts.getD 0 []) with
      | none => .error "Invalid decimal mask: integer part must contain underscores"
      | some integerPattern =>
        match extractPattern (parts.getD 1 []) with
        | none => .error "Invalid decimal mask: fractional part must contain underscores"
        | some fractionalPattern =>
          .ok
            { mask
              segments := [
                { type := .integer
                  length := integerPattern.digitLength
                  startIndex := integerPattern.prefixPart.length
                  thousandsSeparators :=
                    if integerPattern.thousandsSeparators.isEmpty then none
                    else some integerPattern.thousandsSeparators },
                { type := .fractional
                  length := fractionalPattern.digitLength
                  startIndex := integerPattern.prefixPart.length
                    + integerPattern.digitLength + 1 }]
              maskPrefix := String.mk integerPattern.prefixPart
              maskSuffix := String.mk fractionalPattern.suffixPart
              type := .decimal
              totalSlots := integerPattern.digitLength + fractionalPattern.digitLength }
  else
    match extractPattern mask.data with
    | none => .error "Invalid mask: must contain at least one underscore"
    | some pattern =>
      .ok
        { mask
          segments := [
            { type := .integer
              length := pattern.digitLength
              startIndex := pattern.prefixPart.length
              thousandsSeparators :=
                if pattern.thousandsSeparators.isEmpty then none
                else some pattern.thousandsSeparators }]
          maskPrefix := String.mk pattern.prefixPart
          maskSuffix := String.mk pattern.suffixPart
          type := .simple
          totalSlots := pattern.digitLength }

/-- `parseMaskValue` from `mask.utils` (lines 675–730): the partial
record of segment strings it builds (`none` for keys the branch does not
set).  No digit filtering is performed: after prefix/suffix removal,
splitting and trimming, each part is only truncated to its segment's
declared length. -/
def parseMaskValue (value : String) (format : MaskFormat) :
    MaskSegmentType → Option String :=
  let clean1 :=
    if format.maskPrefix ≠ "" ∧ format.maskPrefix.data.isPrefixOf value.data then
      value.data.drop format.maskPrefix.length
    else value.data
  let cleanValue :=
    if format.maskSuffix ≠ "" ∧ format.maskSuffix.data.isSuffixOf clean1 then
      clean1.take (clean1.length - format.maskSuffix.length)
    else clean1
  match format.type with
  | .fraction =>
    let parts := splitOnChar '/' cleanValue
    let num0 := jsTrim (parts.getD 0 [])
    let den0 := jsTrim (parts.getD 1 [])
    let num := match format.segments.find? (fun s => s.type == MaskSegmentType.numerator) with
      | some seg => num0.take seg.length
      | none => num0
    let den := match format.segments.find? (fun s => s.type == MaskSegmentType.denominator) with
      | some seg => den0.take seg.length
      | none => den0
    fun t => match t with
      | .numerator => some (String.mk num)
      | .denominator => some (String.mk den)
      | _ => none
  | .decimal =>
    let parts := splitOnChar ',' cleanValue
    let int0 := jsTrim (parts.getD 0 [])
    let fr0 := jsTrim (parts.getD 1 [])
    let int1 := match format.segments.find? (fun s => s.type == MaskSegmentType.integer) with
      | some seg => int0.take seg.length
      | none => int0
    let fr1 := match format.segments.find? (fun s => s.type == MaskSegmentType.fractional) with
      | some seg => fr0.take seg.length
      | none => fr0
    fun t => match t with
      | .integer => some (String.mk int1)
      | .fractional => some (String.mk fr1)
      | _ => none
  | .simple =>
    let int0 := jsTrim cleanValue
    let int1 := match format.segments.find? (fun s => s.type == MaskSegmentType.integer) with
      | some seg => int0.take seg.length
      | none => int0
    fun t => match t with
      | .integer => some (String.mk int1)
      | _ => none

/-- `createMaskState` from `mask.utils` (lines 652–670). -/
def createMaskState (format : MaskFormat) (initialValue : String := "") : MaskState :=
  let segments : MaskSegmentType → String :=
    if initialValue ≠ "" then
      fun t => ((parseMaskValue initialValue format) t).getD ""
    else fun _ => ""
  { segments
    activeSegment := ((format.segments.head?).map (·.type)).getD .integer }

/-- `formatMaskValue` from `mask.utils`. -/
def formatMaskValue (state : MaskState) (format : MaskFormat) : String :=
  let result := match format.type with
    | .fraction => state.segments .numerator ++ "/" ++ state.segments .denominator
    | .decimal => state.segments .integer ++ "," ++ state.segments .fractional
    | .simple => state.segments .integer
  format.maskPrefix ++ result ++ format.maskSuffix

/-- `getMaskRawValue` from `mask.utils`: the same join without
prefix/suffix. -/
def getMaskRawValue (state : MaskState) (format : MaskFormat) : String :=
  match format.type with
  | .fraction => state.segments .numerator ++ "/" ++ state.segments .denominator
  | .decimal => state.segments .integer ++ "," ++ state.segments .fractional
  | .simple => state.segments .integer

/-- `appendDigitToMask` from `mask.utils` (lines 776–816). -/
def appendDigitToMask (state : MaskState) (digit : Nat) (format : MaskFormat) : MaskState :=
  match format.segments.find? (fun s => s.type == state.activeSegment) with
  | none => state
  | some segment =>
    let currentValue := state.segments state.activeSegment
    if currentValue.length ≥ segment.length then
      let currentIndex := format.segments.findIdx (fun s => s.type == state.activeSegment)
      match format.segments.get? (currentIndex + 1) with
      | some nextSegment =>
        let nextValue := state.segments nextSegment.type
        if nextValue.length < nextSegment.length then
          { state with
            segments := fun t =>
              if t = nextSegment.type then nextValue ++ toString digit
              else state.segments t
            activeSegment := nextSegment.type }
        else state
      | none => state
    else
      { state with
        segments := fun t =>
          if t = state.activeSegment then currentValue ++ toString digit
          else state.segments t }

/-- `deleteCharFromMask` from `mask.utils` (lines 821–851). -/
def deleteCharFromMask (state : MaskState) (format : MaskFormat) : MaskState :=
  let currentValue := state.segments state.activeSegment
  if currentValue.length > 0 then
    { state with
      segments := fun t =>
        if t = state.activeSegment then String.mk currentValue.data.dropLast
        else state.segments t }
  else
    -- findIndex yields -1 (not found) or 0: both fail `currentIndex > 0`
    match format.segments.findIdx? (fun s => s.type == state.activeSegment) with
    | some (i + 1) =>
      match format.segments.get? i with
      | some prevSegment =>
        let prevValue := state.segments prevSegment.type
        { state with
          segments := fun t =>
            if t = prevSegment.type then String.mk prevValue.data.dropLast
            else state.segments t
          activeSegment := prevSegment.type }
      | none => state
    | _ => state

/-- `clearMask` from `mask.utils`. -/
def clearMask (format : MaskFormat) : MaskState :=
  createMaskState format

/-! ## State, actions and the reducer (`src/core/numpad.ts`) -/

/-- `NumpadState`; `lastAction` holds the action's `type` string. -/
structure NumpadState where
  value : String
  isPristine : Bool
  lastAction : Option String := none
  validationError : Option ValidationError := none
  maskState : Option MaskState := none

/-- The tagged-union `NumpadAction`.  `unknown` models a runtime action
object whose `type` string matches none of the handled kinds. -/
inductive NumpadAction where
  | digit (d : Nat)
  | decimal
  | delete
  | clear
  | toggleSign
  | set (value : String)
  | submit
  | unknown (tag : String)

/-- `action.type`. -/
def actionType : NumpadAction → String
  | .digit _ => "digit"
  | .decimal => "decimal"
  | .delete => "delete"
  | .clear => "clear"
  | .toggleSign => "toggle-sign"
  | .set _ => "set"
  | .submit => "submit"
  | .unknown tag => tag

/-- JavaScript truthiness of `config.mask` (an empty mask string is
falsy). -/
def maskTruthy : Option String → Bool
  | some m => m ≠ ""
  | none => false

/-- `createNumpadState` (lines 79–110); the `catch` around mask parsing
falls back to standard mode.  The embedding receives the already
normalized configuration. -/
def createNumpadState (initialValue : String) (config : NumpadConfig) : NumpadState :=
  let standard : NumpadState :=
    let normalized := sanitizeValue initialValue config
    { value := normalized
      isPristine := true
      validationError := validateValue normalized config }
  if maskTruthy config.mask then
    match parseMask (config.mask.getD "") with
    | .ok maskFormat =>
      let maskState := createMaskState maskFormat initialValue
      let value := getMaskRawValue maskState maskFormat
      { value
        isPristine := true
        maskState := some maskState
        validationError := validateValue value config }
    | .error _ => standard
  else standard

/-- The `maskActionHandlers` table: `some` when a handler exists for the
action kind, yielding the new raw value and mask state. -/
def maskHandle (state : NumpadState) (action : NumpadAction) (maskFormat : MaskFormat) :
    Option (String × MaskState) :=
  match action with
  | .digit d =>
    let maskState := state.maskState.getD (createMaskState maskFormat state.value)
    let newMaskState := appendDigitToMask maskState d maskFormat
    some (getMaskRawValue newMaskState maskFormat, newMaskState)
  | .delete =>
    let maskState := state.maskState.getD (createMaskState maskFormat state.value)
    let newMaskState := deleteCharFromMask maskState maskFormat
    some (getMaskRawValue newMaskState maskFormat, newMaskState)
  | .clear =>
    let newMaskState := clearMask maskFormat
    some (getMaskRawValue newMaskState maskFormat, newMaskState)
  | .set v =>
    let newMaskState := createMaskState maskFormat v
    some (getMaskRawValue newMaskState maskFormat, newMaskState)
  | _ => none

/-- The `standardActionHandlers` table. -/
def standardHandle (state : NumpadState) (action : NumpadAction) (config : NumpadConfig) :
    Option String :=
  match action with
  | .digit d => some (appendDigit state.value d config)
  | .decimal => some (appendDecimal state.value config)
  | .delete => some (deleteChar state.value)
  | .clear => some ""
  | .toggleSign => some (toggleSign state.value config)
  | .set v => some (sanitizeValue v config)
  | _ => none

/-- `reduceNumpad` (lines 190–232); the embedding receives the already
normalized configuration. -/
def reduceNumpad (state : NumpadState) (action : NumpadAction) (config : NumpadConfig) :
    NumpadState :=
  let next := { state with lastAction := some (actionType action), isPristine := false }
  match action with
  | .submit => next
  | _ =>
    if maskTruthy config.mask && state.maskState.isSome then
      match parseMask (config.mask.getD "") with
      | .error _ => next  -- the catch: warn and return the stamped state
      | .ok maskFormat =>
        match maskHandle state action maskFormat with
        | some (value, maskState) =>
          { next with
            value
            maskState := some maskState
            validationError := validateValue value config }
        | none => next
    else
      match standardHandle state action config with
      | some value => { next with value, validationError := validateValue value config }
      | none => next

/-- A sequence of dispatches. -/
def runActions (state : NumpadState) (actions : List NumpadAction) (config : NumpadConfig) :
    NumpadState :=
  actions.foldl (fun s a => reduceNumpad s a config) state

/-! ## Display formatting (`src/core/numpad.ts` 280–355) -/

structure DisplayValue where
  raw : String
  formatted : String
  numeric : Option ℚ

/-- `padDecimalPlaces` (lines 346–355): split on the separator with
JavaScript `split` semantics, take the first two parts, right-pad the
fractional part with zeros (`padEnd` never truncates). -/
def padDecimalPlaces (value : String) (decimalPlaces : Nat) (separator : String) : String :=
  if value = "" then "0" ++ separator ++ String.mk (List.replicate decimalPlaces '0')
  else
    let parts := jsSplit value.data separator.data
    let integerPart := parts.getD 0 ['0']
    let fractionalPart := parts.getD 1 []
    let paddedFractional :=
      fractionalPart ++ List.replicate (decimalPlaces - fractionalPart.length) '0'
    String.mk integerPart ++ separator ++ String.mk paddedFractional

/-- The standard-mode default formatting: the raw value with the first
`.` replaced by the configured separator, zero-padded to `allowDecimal`
fractional places when `allowDecimal` is a positive integer. -/
def standardFormatted (raw : String) (config : NumpadConfig) : String :=
  let formatted0 :=
    if config.decimalSeparator = "." then raw
    else String.mk (jsReplaceFirst raw.data '.' config.decimalSeparator.data)
  match config.allowDecimal with
  | .num n =>
    if n > 0 then padDecimalPlaces formatted0 n.toNat config.decimalSeparator
    else formatted0
  | .bool _ => formatted0

/-- A user-supplied `displayRule` callback: `.error ()` models a thrown
exception, `.ok none` a non-string return value, `.ok (some s)` a
returned string. -/
abbrev DisplayRule := String → NumpadConfig → Except Unit (Option String)

/-- `formatDisplayValue` (lines 280–341).  The mask branch requires
`typeof mask === "string"` (any `some`, even `""`) and a present
`maskState`; a mask-formatting failure falls through to the standard
path.  A thrown `displayRule` is swallowed. -/
def formatDisplayValue (state : NumpadState) (config : NumpadConfig)
    (displayRule : Option DisplayRule) : DisplayValue :=
  let raw := state.value
  let maskResult : Option DisplayValue :=
    match config.mask, state.maskState with
    | some m, some ms =>
      match parseMask m with
      | .ok maskFormat =>
        let formatted := formatMaskValue ms maskFormat
        let numeric : Option ℚ :=
          match maskFormat.type with
          | .decimal => toNumber (String.mk (jsReplaceFirst raw.data ',' ['.']))
          | .simple => toNumber raw
          | .fraction => none
        some { raw, formatted, numeric }
      | .error _ => none
    | _, _ => none
  match maskResult with
  | some dv => dv
  | none =>
    let withRule :=
      match displayRule with
      | some rule =>
        match rule raw config with
        | .ok (some s) => s
        | _ => standardFormatted raw config
      | none => standardFormatted raw config
    { raw, formatted := withRule, numeric := toNumber state.value }

/-! ## Invariants and auxiliary predicates for the claims -/

/-- The claims' sign/separator invariant on a value string: at most one
`-`, any `-` at index 0, at most one `.`. -/
def signSepInvariant (value : String) : Prop :=
  value.data.count '-' ≤ 1 ∧ (∀ c ∈ value.data.drop 1, c ≠ '-') ∧
    value.data.count '.' ≤ 1

/-- Configuration for the C1 counterexample: a decimal mask together
with a `minValue` bound. -/
def cexMaskConfig : NumpadConfig :=
  { defaultConfig with mask := some "__,__", minValue := some 1000 }

/-- The format `parseMask "__,__"` produces. -/
def decimalFmt22 : MaskFormat :=
  { mask := "__,__"
    segments := [
      { type := .integer, length := 2, startIndex := 0 },
      { type := .fractional, length := 2, startIndex := 3 }]
    maskPrefix := ""
    maskSuffix := ""
    type := .decimal
    totalSlots := 4 }

/-- The format `parseMask "__"` produces. -/
def simpleFmt2 : MaskFormat :=
  { mask := "__"
    segments := [{ type := .integer, length := 2, startIndex := 0 }]
    maskPrefix := ""
    maskSuffix := ""
    type := .simple
    totalSlots := 2 }

/-- A full mask state for `simpleFmt2`: its only segment holds `"12"`. -/
def maskStFull12 : MaskState :=
  { segments := fun t => if t = .integer then "12" else ""
    activeSegment := .integer }

/-- A mask state for `simpleFmt2` with room: its segment holds `"1"`. -/
def maskStHalf1 : MaskState :=
  { segments := fun t => if t = .integer then "1" else ""
    activeSegment := .integer }

/-- Configuration with a simple 3-slot mask (claim C10). -/
def simpleMaskConfig : NumpadConfig :=
  { defaultConfig with mask := some "___" }

/-- A display rule that returns a fixed string (claim C8 witness). -/
def constRule : DisplayRule := fun _ _ => .ok (some "custom")

/-- A display rule that throws (claim C8 witness). -/
def throwRule : DisplayRule := fun _ _ => .error ()

/-- A plain standard-mode state holding `"5"`. -/
def displayState5 : NumpadState := { value := "5", isPristine := true }

/-- A plain standard-mode state holding `"7"` (claim C9 witness). -/
def plainState7 : NumpadState := { value := "7", isPristine := true }

/-- Default configuration with a two-place decimal cap. -/
def padConfig2 : NumpadConfig := { defaultConfig with allowDecimal := .num 2 }

/-- Invariant of `sanitizeValue`'s scan state: the sign flag implies the
configuration allows it; with the fractional mark accepted, the
accumulated characters are digits around a single `.`, where the digits
before the mark are not decimal characters; without it, they are all
digits, none a decimal character while the configuration would accept
one. -/
def ScanInv (config : NumpadConfig) (st : ScanState) : Prop :=
  (st.isNegative = true → config.allowNegative = true) ∧
  (if st.hasDecimal then
      config.allowDecimal.truthy = true ∧
      ∃ pre post, st.chars = pre ++ '.' :: post ∧
        (∀ c ∈ pre, c.isDigit = true ∧ isDecimalChar config c = false) ∧
        (∀ c ∈ post, c.isDigit = true)
    else
      ∀ c ∈ st.chars, c.isDigit = true ∧
        (config.allowDecimal.truthy = true → isDecimalChar config c = false))

/-- C2: the source's `validateValue` performs exactly the cascade the
specification describes, in exactly that order. -/
theorem validateValue_eq_spec (value : String) (config : NumpadConfig) :
    validateValue value config = validateValueSpec value config := by
  have hc : (value.data.filter (fun c => !(c = '-' || c = '.'))).length
      = specDigitCount value := by
    unfold specDigitCount
    congr 1
    apply List.filter_congr
    intro c _
    by_cases hc1 : c = '-' <;> by_cases hc2 : c = '.' <;> simp [hc1, hc2]
  unfold validateValue validateValueSpec
  by_cases h1 : value = ""
  · simp [h1]
  · by_cases h2 : value = "-"
    · simp [h1, h2]
    · simp only [h1, h2, or_self, if_false, if_neg, false_or]
      cases htn : toNumber value with
      | none => simp
      | some q =>
        simp only [hc]
        unfold validateValueSpec.validateValueSpecDigits
          validateValueSpec.validateValueSpecCount validateValueSpec.validateValueSpecMax
        unfold boundLt boundGt countLt countGt
        cases config.minValue <;> cases config.maxValue <;>
          cases config.minDigits <;> cases config.maxDigits <;>
          simp only [gt_iff_lt, decide_eq_true_eq, Bool.false_eq_true, if_false, hc]

/-! ## Helper lemmas on the JavaScript string primitives -/

theorem removeFirst_length (l : List Char) (c : Char) :
    (removeFirst l c).length = if c ∈ l then l.length - 1 else l.length := by
  induction l with
  | nil => simp [removeFirst, jsReplaceFirst]
  | cons a as ih =>
    by_cases h : a = c
    · subst h
      simp [removeFirst, jsReplaceFirst]
    · have hmem : c ∈ a :: as ↔ c ∈ as := by
        constructor
        · intro hca
          rcases List.mem_cons.mp hca with rfl | hca
          · exact absurd rfl h
          · exact hca
        · intro hca
          exact List.mem_cons_of_mem _ hca
      simp only [removeFirst, jsReplaceFirst, if_neg h] at *
      by_cases hm : c ∈ as
      · have hlen : 1 ≤ as.length := List.length_pos.mpr (List.ne_nil_of_mem hm)
        simp only [List.length_cons, hmem, hm, if_pos, ih]
        omega
      · simp [hmem, hm, ih]

theorem filter_digit_length (l : List Char) (h : ∀ c ∈ l, c.isDigit ∨ c = '.') :
    (l.filter Char.isDigit).length = l.length - l.count '.' := by
  induction l with
  | nil => simp
  | cons a as ih =>
    have ha := h a (by simp)
    have ih' := ih (fun c hc => h c (by simp [hc]))
    have hcle := List.count_le_length '.' as
    rcases ha with hd | hdot
    · have hne : ('.' : Char) ≠ a := by
        rintro rfl
        simp at hd
      rw [List.filter_cons, if_pos hd, List.count_cons,
        if_neg (by simp [Ne.symm hne] : ¬((a == '.') = true))]
      simp only [List.length_cons, ih']
      omega
    · subst hdot
      rw [List.filter_cons, if_neg (by decide : ¬(('.' : Char).isDigit = true)),
        List.count_cons, if_pos (by simp : (('.' : Char) == '.') = true)]
      simp only [List.length_cons, ih']
      omega

theorem mem_split_unique {l : List Char} {c : Char} (hm : c ∈ l) (hc : l.count c ≤ 1) :
    ∃ a b, l = a ++ c :: b ∧ c ∉ a ∧ c ∉ b := by
  induction l with
  | nil => cases hm
  | cons x xs ih =>
    by_cases hx : x = c
    · subst hx
      refine ⟨[], xs, rfl, by simp, ?_⟩
      have h0 : xs.count x = 0 := by
        rw [List.count_cons] at hc
        simp at hc
        omega
      exact List.count_eq_zero.mp h0
    · have hm' : c ∈ xs := by
        rcases List.mem_cons.mp hm with rfl | h'
        · exact absurd rfl hx
        · exact h'
      have hc' : xs.count c ≤ 1 := by
        rw [List.count_cons] at hc
        omega
      obtain ⟨a, b, hab, hna, hnb⟩ := ih hm' hc'
      refine ⟨x :: a, b, by simp [hab], ?_, hnb⟩
      intro hmem
      rcases List.mem_cons.mp hmem with rfl | hmem'
      · exact hx rfl
      · exact hna hmem'

theorem splitOnChar_ne_nil (sep : Char) (l : List Char) : splitOnChar sep l ≠ [] := by
  cases l with
  | nil => simp [splitOnChar]
  | cons c cs =>
    rw [splitOnChar]
    by_cases h : c = sep
    · simp [h]
    · rw [if_neg h]
      cases splitOnChar sep cs <;> simp

theorem splitOnChar_not_mem (sep : Char) (l : List Char) (h : sep ∉ l) :
    splitOnChar sep l = [l] := by
  induction l with
  | nil => rfl
  | cons c cs ih =>
    have hc : ¬ c = sep := fun hh => h (by simp [hh])
    rw [splitOnChar, if_neg hc, ih (fun hm => h (List.mem_cons_of_mem _ hm))]

theorem splitOnChar_found (sep : Char) (b : List Char) (a : List Char) (ha : sep ∉ a) :
    splitOnChar sep (a ++ sep :: b) = a :: splitOnChar sep b := by
  induction a with
  | nil =>
    rw [List.nil_append, splitOnChar, if_pos rfl]
  | cons c cs ih =>
    have hc : ¬ c = sep := fun hh => ha (by simp [hh])
    rw [List.cons_append, splitOnChar, if_neg hc,
      ih (fun hm => ha (List.mem_cons_of_mem _ hm))]

theorem splitPart_one_dot (a b : List Char) (ha : '.' ∉ a) (hb : '.' ∉ b) :
    splitPart (a ++ '.' :: b) '.' 1 = b := by
  unfold splitPart
  rw [splitOnChar_found '.' b a ha, splitOnChar_not_mem '.' b hb]
  rfl

theorem dropWhile_to_dot (a b : List Char) (ha : '.' ∉ a) :
    (a ++ '.' :: b).dropWhile (· ≠ '.') = '.' :: b := by
  induction a with
  | nil =>
    rw [List.nil_append, List.dropWhile_cons, if_neg (by simp)]
  | cons c cs ih =>
    have hnc : c ≠ '.' := fun hh => ha (by simp [hh])
    rw [List.cons_append, List.dropWhile_cons, if_pos (by simp [hnc])]
    exact ih (fun hm => ha (List.mem_cons_of_mem _ hm))

theorem maxDigitsReached_eq_plus_one (config : NumpadConfig) (n : Nat) :
    maxDigitsReached config n
      = (match config.maxDigits with
         | some m => decide ((n : Int) + 1 > m)
         | none => false) := by
  unfold maxDigitsReached
  cases h : config.maxDigits with
  | none => rfl
  | some m =>
    show decide ((n : Int) ≥ m) = decide ((n : Int) + 1 > m)
    rw [decide_eq_decide]
    omega

/-! ## Claim C3: the standard-mode `digit` action -/

/-- C3 (counterexample): on a current value that is not in canonical shape
(two `.` marks), the code counts the second `.` as a digit — with
`maxDigits = 4` and current value `"1.2.3"` the code rejects the append
while the claim's description appends. -/
theorem appendDigit_spec_cex :
    appendDigit "1.2.3" 5 cexConfigMax4 = "1.2.3" ∧
    appendDigitSpecC3 "1.2.3" 5 cexConfigMax4 = "1.2.35" ∧
    appendDigit "1.2.3" 5 cexConfigMax4 ≠ appendDigitSpecC3 "1.2.3" 5 cexConfigMax4 := by
  refine ⟨by decide, by decide, by decide⟩

/-- C3 (amended): for every current value in canonical shape (after the
optional sign only digits and at most one `.` — every value the
standard-mode reducer produces), the `digit` action behaves exactly as
the claim describes. -/
theorem appendDigit_eq_specC3 (current : String) (digit : Nat) (config : NumpadConfig)
    (h : wellFormedValue current) :
    appendDigit current digit config = appendDigitSpecC3 current digit config := by
  simp only [wellFormedValue] at h
  obtain ⟨hall, hcnt⟩ := h
  unfold appendDigit appendDigitSpecC3
  simp only []
  set U := if current.data.head? = some '-' then current.data.tail else current.data with hU
  by_cases hdot : '.' ∈ U
  · obtain ⟨a, b, hab, hna, hnb⟩ := mem_split_unique hdot hcnt
    have hcnt1 : U.count '.' = 1 := by
      have h1 : 1 ≤ U.count '.' := List.count_pos_iff.mpr hdot
      omega
    have hrf : (removeFirst U '.').length = U.length - 1 := by
      rw [removeFirst_length, if_pos hdot]
    have hsd : specUnsignedDigits U = U.length - 1 := by
      unfold specUnsignedDigits
      rw [filter_digit_length U hall, hcnt1]
    have hlen1 : 1 ≤ U.length := List.length_pos.mpr (List.ne_nil_of_mem hdot)
    have hsplit : splitPart U '.' 1 = b := by
      rw [hab]; exact splitPart_one_dot a b hna hnb
    have hfrac : specFracCount U = b.length := by
      unfold specFracCount
      rw [hab, dropWhile_to_dot a b hna]
      simp
    have hc1 : maxDigitsReached config ((removeFirst U '.').length)
        = (match config.maxDigits with
           | some m => decide ((specUnsignedDigits U : Int) + 1 > m)
           | none => false) := by
      rw [hrf, ← hsd, maxDigitsReached_eq_plus_one]
    have h3 : ¬(U = [] ∨ U = ['0']) := by
      intro hor
      rcases hor with h' | h'
      · rw [h'] at hdot
        cases hdot
      · rw [h'] at hdot
        simp at hdot
    rw [hc1, hsplit, hfrac, if_neg h3, if_neg h3]
  · have hc0 : U.count '.' = 0 := List.count_eq_zero.mpr hdot
    have hcont : U.contains '.' = false := by
      simp [hdot]
    have hrf : (removeFirst U '.').length = U.length := by
      rw [removeFirst_length, if_neg hdot]
    have hsd : specUnsignedDigits U = U.length := by
      unfold specUnsignedDigits
      rw [filter_digit_length U hall, hc0]
      omega
    have hc1 : maxDigitsReached config ((removeFirst U '.').length)
        = (match config.maxDigits with
           | some m => decide ((specUnsignedDigits U : Int) + 1 > m)
           | none => false) := by
      rw [hrf, ← hsd, maxDigitsReached_eq_plus_one]
    rw [hc1, hcont]
    simp only [Bool.false_and, Bool.not_false, Bool.and_true, Bool.false_eq_true, if_false,
      decide_eq_true_eq]

/-- C3 (witness): the amended theorem applied at the canonical value
`"1.5"`, digit 2, default configuration. -/
theorem appendDigit_eq_specC3_witness :
    wellFormedValue "1.5" ∧
    appendDigit "1.5" 2 defaultConfig = appendDigitSpecC3 "1.5" 2 defaultConfig :=
  ⟨by unfold wellFormedValue; decide,
    appendDigit_eq_specC3 "1.5" 2 defaultConfig (by unfold wellFormedValue; decide)⟩

/-! ## Claim C4: idempotence of `sanitizeValue` -/

/-- C4 (counterexample): `sanitizeValue` is not idempotent for every
configuration.  With `maxDigits = 1`, sanitizing `".5"` produces `"0.5"`
(the normalizer inserts a leading zero), and sanitizing that again
produces `"0."` because the inserted zero now consumes the digit budget. -/
theorem sanitizeValue_not_idempotent :
    sanitizeValue ".5" cexConfigMax1 = "0.5" ∧
    sanitizeValue (sanitizeValue ".5" cexConfigMax1) cexConfigMax1 = "0." ∧
    sanitizeValue (sanitizeValue ".5" cexConfigMax1) cexConfigMax1
      ≠ sanitizeValue ".5" cexConfigMax1 := by
  refine ⟨by decide, by decide, by decide⟩

theorem mem_dropWhile_of_false {l : List Char} {c : Char} {p : Char → Bool}
    (hc : c ∈ l) (hp : p c = false) : c ∈ l.dropWhile p := by
  induction l with
  | nil => cases hc
  | cons a as ih =>
    rw [List.dropWhile_cons]
    by_cases ha : p a = true
    · rw [if_pos ha]
      rcases List.mem_cons.mp hc with rfl | h'
      · rw [hp] at ha; cases ha
      · exact ih h'
    · rw [if_neg ha]
      exact hc

theorem mem_jsTrim {l : List Char} {c : Char} (hc : c ∈ l)
    (hw : isJsWhitespace c = false) : c ∈ jsTrim l := by
  unfold jsTrim
  rw [List.mem_reverse]
  apply mem_dropWhile_of_false _ hw
  rw [List.mem_reverse]
  exact mem_dropWhile_of_false hc hw

theorem parseUnsignedDec_eq_none {l : List Char} {c : Char} (hc : c ∈ l)
    (hd : c.isDigit = false) (hdot : c ≠ '.') : parseUnsignedDec l = none := by
  have hnotin : c ∉ l.takeWhile Char.isDigit := by
    intro hmem
    exact absurd (List.mem_takeWhile_imp hmem) (by simp [hd])
  obtain ⟨t, ht⟩ := List.takeWhile_prefix (l := l) Char.isDigit
  have hdrop : l.drop (l.takeWhile Char.isDigit).length = t := by
    nth_rewrite 2 [← ht]
    exact List.drop_left _ _
  have hcrest : c ∈ t := by
    rcases List.mem_append.mp (ht ▸ hc) with h' | h'
    · exact absurd h' hnotin
    · exact h'
  unfold parseUnsignedDec
  dsimp only
  rw [hdrop]
  cases t with
  | nil => exact absurd hcrest (List.not_mem_nil c)
  | cons r frac =>
    dsimp only
    by_cases hr : r = '.'
    · subst hr
      rw [if_pos rfl, if_neg]
      rintro ⟨hall, -⟩
      rcases List.mem_cons.mp hcrest with rfl | h'
      · exact hdot rfl
      · have hcd := List.all_eq_true.mp hall c h'
        rw [hd] at hcd
        cases hcd
    · rw [if_neg hr]

theorem jsNumber_eq_none_of_bad {value : String} {c : Char} (hc : c ∈ value.data)
    (hd : c.isDigit = false) (hdot : c ≠ '.') (hminus : c ≠ '-') (hplus : c ≠ '+')
    (hw : isJsWhitespace c = false) : jsNumber value = none := by
  unfold jsNumber
  have hct : c ∈ jsTrim value.data := mem_jsTrim hc hw
  cases ht : jsTrim value.data with
  | nil =>
    rw [ht] at hct
    cases hct
  | cons a rest =>
    rw [ht] at hct
    dsimp only
    by_cases ha1 : a = '-'
    · rw [if_pos ha1]
      have hcr : c ∈ rest := by
        rcases List.mem_cons.mp hct with rfl | h'
        · exact absurd ha1 hminus
        · exact h'
      rw [parseUnsignedDec_eq_none hcr hd hdot]
      rfl
    · rw [if_neg ha1]
      by_cases ha2 : a = '+'
      · rw [if_pos ha2]
        have hcr : c ∈ rest := by
          rcases List.mem_cons.mp hct with rfl | h'
          · exact absurd ha2 hplus
          · exact h'
        exact parseUnsignedDec_eq_none hcr hd hdot
      · rw [if_neg ha2]
        exact parseUnsignedDec_eq_none hct hd hdot

theorem validateValue_eq_none_of_bad {value : String} {c : Char} (config : NumpadConfig)
    (hc : c ∈ value.data) (hd : c.isDigit = false) (hdot : c ≠ '.') (hminus : c ≠ '-')
    (hplus : c ≠ '+') (hw : isJsWhitespace c = false) :
    validateValue value config = none := by
  unfold validateValue
  by_cases hv : value = "" ∨ value = "-"
  · rw [if_pos hv]
  · rw [if_neg hv]
    unfold toNumber
    rw [if_neg hv, jsNumber_eq_none_of_bad hc hd hdot hminus hplus hw]

/-! ## Claim C1: validation of mask-derived raw values -/

/-- C1 (counterexample): with the decimal mask `"__,__"` and
`minValue = 1000`, the initial value `"99,99"` yields a raw value whose
numeric reading 99.99 is far below the minimum, yet `validationError` is
`null` (the raw value `"99,99"` is not a finite number for `Number`), not
`"minValue"` as the claim requires. -/
theorem mask_validation_cex :
    (createNumpadState "99,99" cexMaskConfig).value = "99,99" ∧
    (∃ q, toNumber "99.99" = some q ∧ q < 1000) ∧
    (createNumpadState "99,99" cexMaskConfig).validationError = none ∧
    (createNumpadState "99,99" cexMaskConfig).validationError ≠ some .minValue := by
  refine ⟨by decide, ⟨(99 : ℚ) + (99 : ℚ) / 10 ^ 2, ?_, by norm_num⟩, by decide, by decide⟩
  unfold toNumber jsNumber
  rw [if_neg (by decide)]
  rw [show jsTrim "99.99".data = ['9', '9', '.', '9', '9'] from by decide]
  dsimp only
  rw [if_neg (by decide), if_neg (by decide)]
  unfold parseUnsignedDec
  rw [show List.takeWhile Char.isDigit ['9', '9', '.', '9', '9'] = ['9', '9'] from by decide]
  dsimp only
  rw [show List.drop (['9', '9'].length) ['9', '9', '.', '9', '9'] = ['.', '9', '9'] from
    by decide]
  dsimp only
  rw [if_pos rfl, if_pos (by refine ⟨by decide, by decide⟩)]
  rw [show digitsToNat ['9', '9'] = 99 from by decide]
  norm_num

theorem createNumpadState_mask_link (config : NumpadConfig) (m : String) (f : MaskFormat)
    (v : String) (hm : config.mask = some m) (hne : m ≠ "") (hp : parseMask m = .ok f) :
    (createNumpadState v config).maskState = some (createMaskState f v) ∧
    (createNumpadState v config).validationError
      = validateValue (getMaskRawValue (createMaskState f v) f) config := by
  unfold createNumpadState
  rw [hm]
  have ht : maskTruthy (some m) = true := by
    simp [maskTruthy, hne]
  rw [ht, if_pos rfl]
  simp only [Option.getD_some, hp]
  exact ⟨trivial, trivial⟩

theorem reduce_mask_link (config : NumpadConfig) (m : String) (f : MaskFormat)
    (hm : config.mask = some m) (hne : m ≠ "") (hp : parseMask m = .ok f)
    (state : NumpadState) (action : NumpadAction)
    (h : ∃ ms, state.maskState = some ms ∧
      state.validationError = validateValue (getMaskRawValue ms f) config) :
    ∃ ms, (reduceNumpad state action config).maskState = some ms ∧
      (reduceNumpad state action config).validationError
        = validateValue (getMaskRawValue ms f) config := by
  obtain ⟨ms, hms, hval⟩ := h
  have hguard : (maskTruthy config.mask && state.maskState.isSome) = true := by
    rw [hm, hms]
    simp [maskTruthy, hne]
  cases action with
  | submit => exact ⟨ms, hms, hval⟩
  | digit d =>
    unfold reduceNumpad
    dsimp only
    rw [if_pos hguard, hm]
    simp only [Option.getD_some]
    rw [hp]
    dsimp only [maskHandle]
    exact ⟨_, rfl, rfl⟩
  | delete =>
    unfold reduceNumpad
    dsimp only
    rw [if_pos hguard, hm]
    simp only [Option.getD_some]
    rw [hp]
    dsimp only [maskHandle]
    exact ⟨_, rfl, rfl⟩
  | clear =>
    unfold reduceNumpad
    dsimp only
    rw [if_pos hguard, hm]
    simp only [Option.getD_some]
    rw [hp]
    dsimp only [maskHandle]
    exact ⟨_, rfl, rfl⟩
  | set v =>
    unfold reduceNumpad
    dsimp only
    rw [if_pos hguard, hm]
    simp only [Option.getD_some]
    rw [hp]
    dsimp only [maskHandle]
    exact ⟨_, rfl, rfl⟩
  | decimal =>
    unfold reduceNumpad
    dsimp only
    rw [if_pos hguard, hm]
    simp only [Option.getD_some]
    rw [hp]
    dsimp only [maskHandle]
    exact ⟨ms, hms, hval⟩
  | toggleSign =>
    unfold reduceNumpad
    dsimp only
    rw [if_pos hguard, hm]
    simp only [Option.getD_some]
    rw [hp]
    dsimp only [maskHandle]
    exact ⟨ms, hms, hval⟩
  | unknown tag =>
    unfold reduceNumpad
    dsimp only
    rw [if_pos hguard, hm]
    simp only [Option.getD_some]
    rw [hp]
    dsimp only [maskHandle]
    exact ⟨ms, hms, hval⟩

/-- C1 (amended): in mask mode `validationError` is always `validateValue`
applied to the mask's derived raw value — for the state produced by
`createNumpadState` and for every state the reducer derives from it (the
empty action list gives the created state itself) — but the constraints
only bite for simple masks: for decimal and fraction mask types the raw
value contains `,` or `/`, never converts to a finite number, and the
validation result is always `null`. -/
theorem mask_validation_amended :
    (∀ (ms : MaskState) (f : MaskFormat) (config : NumpadConfig),
      f.type = .decimal ∨ f.type = .fraction →
      validateValue (getMaskRawValue ms f) config = none) ∧
    (∀ (config : NumpadConfig) (m : String) (f : MaskFormat) (v : String)
      (actions : List NumpadAction),
      config.mask = some m → m ≠ "" → parseMask m = .ok f →
      ∃ ms,
        (runActions (createNumpadState v config) actions config).maskState = some ms ∧
        (runActions (createNumpadState v config) actions config).validationError
          = validateValue (getMaskRawValue ms f) config) := by
  constructor
  · intro ms f config h
    rcases h with h | h
    · have hraw : getMaskRawValue ms f
          = ms.segments .integer ++ "," ++ ms.segments .fractional := by
        unfold getMaskRawValue
        rw [h]
      have hmem : ',' ∈ (getMaskRawValue ms f).data := by
        rw [hraw]
        simp [String.data_append]
      exact validateValue_eq_none_of_bad config hmem (by decide) (by decide) (by decide)
        (by decide) (by decide)
    · have hraw : getMaskRawValue ms f
          = ms.segments .numerator ++ "/" ++ ms.segments .denominator := by
        unfold getMaskRawValue
        rw [h]
      have hmem : '/' ∈ (getMaskRawValue ms f).data := by
        rw [hraw]
        simp [String.data_append]
      exact validateValue_eq_none_of_bad config hmem (by decide) (by decide) (by decide)
        (by decide) (by decide)
  · intro config m f v actions hm hne hp
    suffices hgen : ∀ (acts : List NumpadAction) (st : NumpadState),
        (∃ ms, st.maskState = some ms ∧
          st.validationError = validateValue (getMaskRawValue ms f) config) →
        ∃ ms, (runActions st acts config).maskState = some ms ∧
          (runActions st acts config).validationError
            = validateValue (getMaskRawValue ms f) config by
      refine hgen actions _ ⟨createMaskState f v, ?_, ?_⟩
      · exact (createNumpadState_mask_link config m f v hm hne hp).1
      · exact (createNumpadState_mask_link config m f v hm hne hp).2
    intro acts
    induction acts with
    | nil => exact fun st h => h
    | cons a as ih =>
      intro st h
      exact ih _ (reduce_mask_link config m f hm hne hp st a h)

/-- C1 (witness): the amended theorem applied to the `"__,__"` decimal
mask with `minValue = 1000`, initial value `"99,99"`, and a `digit 5`
reducer step. -/
theorem mask_validation_amended_witness :
    validateValue (getMaskRawValue (createMaskState decimalFmt22 "99,99") decimalFmt22)
      cexMaskConfig = none ∧
    (∃ ms,
      (runActions (createNumpadState "99,99" cexMaskConfig) [.digit 5]
          cexMaskConfig).maskState = some ms ∧
      (runActions (createNumpadState "99,99" cexMaskConfig) [.digit 5]
          cexMaskConfig).validationError
        = validateValue (getMaskRawValue ms decimalFmt22) cexMaskConfig) :=
  ⟨mask_validation_amended.1 (createMaskState decimalFmt22 "99,99") decimalFmt22
      cexMaskConfig (Or.inl rfl),
    mask_validation_amended.2 cexMaskConfig "__,__" decimalFmt22 "99,99" [.digit 5] rfl
      (by decide) rfl⟩

/-! ## Claim C7: `parseMask` on fractions and mixed masks -/

theorem first_occ_decomp (l : List Char) (c : Char) (h : c ∈ l) :
    l = l.takeWhile (· ≠ c) ++ c :: (l.dropWhile (· ≠ c)).tail ∧
      c ∉ l.takeWhile (· ≠ c) := by
  induction l with
  | nil => cases h
  | cons x xs ih =>
    by_cases hx : x = c
    · subst hx
      rw [List.takeWhile_cons, List.dropWhile_cons]
      simp
    · have h' : c ∈ xs := by
        rcases List.mem_cons.mp h with rfl | h'
        · exact absurd rfl hx
        · exact h'
      obtain ⟨ih1, ih2⟩ := ih h'
      rw [List.takeWhile_cons, List.dropWhile_cons]
      have hxc : (decide ¬(x = c)) = true := by simp [hx]
      rw [hxc]
      constructor
      · simp only [if_true, List.cons_append]
        rw [← ih1]
      · simp only [if_true, List.mem_cons]
        rintro (rfl | hmem)
        · exact hx rfl
        · exact ih2 hmem

theorem splitOnChar_first_part (l : List Char) (s : Char) (h : s ∈ l) :
    (splitOnChar s l).getD 0 [] = l.takeWhile (· ≠ s) := by
  obtain ⟨hdec, hnm⟩ := first_occ_decomp l s h
  conv_lhs => rw [hdec]
  rw [splitOnChar_found s _ _ hnm]
  rfl

/-- C7: `parseMask "__/___"` yields a fraction format with a length-2
numerator, a length-3 denominator and 5 total slots; and every mask
containing both `/` and `,` whose part before the first `/` has no `,`
is rejected with an error. -/
theorem parseMask_fraction_and_mixed :
    ((parseMask "__/___").toOption.map (fun f =>
        (f.type, f.segments.map (fun s => (s.type, s.length)), f.totalSlots)))
      = some (.fraction, [(.numerator, 2), (.denominator, 3)], 5) ∧
    (∀ mask : String, '/' ∈ mask.data → ',' ∈ mask.data →
      ',' ∉ mask.data.takeWhile (· ≠ '/') →
      ∃ e, parseMask mask = .error e) := by
  constructor
  · decide
  · intro mask hs hcomma hnc
    have h1 : mask.data.contains '/' = true := by simp [hs]
    have h2 : mask.data.contains ',' = true := by simp [hcomma]
    unfold parseMask
    rw [h1, h2]
    simp only [Bool.and_self, if_true]
    by_cases hp : (splitOnChar '/' mask.data).length = 2
    · rw [if_neg (by simp [hp])]
      have h0 : (splitOnChar '/' mask.data).getD 0 [] = mask.data.takeWhile (· ≠ '/') :=
        splitOnChar_first_part mask.data '/' hs
      have hone : splitOnChar ',' ((splitOnChar '/' mask.data).getD 0 [])
          = [(splitOnChar '/' mask.data).getD 0 []] := by
        rw [h0]
        exact splitOnChar_not_mem ',' _ hnc
      have hlen : (splitOnChar ',' ((splitOnChar '/' mask.data).getD 0 [])).length ≠ 2 := by
        rw [hone]
        simp
      rw [if_pos hlen]
      exact ⟨_, rfl⟩
    · rw [if_pos hp]
      exact ⟨_, rfl⟩

/-- C7 (witness): the mixed-mask half applied to `"__/__,__"`. -/
theorem parseMask_fraction_and_mixed_witness :
    ∃ e, parseMask "__/__,__" = .error e :=
  parseMask_fraction_and_mixed.2 "__/__,__" (by decide) (by decide) (by decide)

/-! ## Claim C10: `createMaskState` copies non-digit characters verbatim -/

/-- C10: with the simple mask `"___"` and the non-numeric initial value
`"a.b"`, the mask state's `integer` segment and the numpad state's
derived `value` hold `"a.b"` verbatim — no digit filtering happens. -/
theorem createMaskState_no_filtering :
    (createNumpadState "a.b" simpleMaskConfig).value = "a.b" ∧
    ((createNumpadState "a.b" simpleMaskConfig).maskState.map
        (fun ms => ms.segments .integer)) = some "a.b" ∧
    ('a' ∈ "a.b".data ∧ 'a'.isDigit = false) ∧
    ('.' ∈ "a.b".data ∧ '.'.isDigit = false) := by
  refine ⟨by decide, by decide, by decide, by decide⟩

/-! ## Claim C6: mask append/delete inverse -/

theorem toString_digit_single {d : Nat} (hd : d < 10) :
    (toString d).data = [Nat.digitChar d] := by
  interval_cases d <;> rfl

/-- C6 (counterexample): on a full mask (`"__"` holding `"12"`) the
append is a no-op, so the active segment is unchanged — the claim's
hypothesis holds — yet the following delete removes a character instead
of restoring the prior per-segment strings. -/
theorem maskAppendDelete_cex :
    parseMask "__" = .ok simpleFmt2 ∧
    (appendDigitToMask maskStFull12 5 simpleFmt2).activeSegment
      = maskStFull12.activeSegment ∧
    maskStFull12.segments .integer = "12" ∧
    (deleteCharFromMask (appendDigitToMask maskStFull12 5 simpleFmt2) simpleFmt2).segments
        .integer = "1" ∧
    (deleteCharFromMask (appendDigitToMask maskStFull12 5 simpleFmt2) simpleFmt2).segments
        .integer ≠ maskStFull12.segments .integer := by
  refine ⟨rfl, rfl, rfl, rfl, by decide⟩

/-- C6 (amended): when the active segment exists in the format and has
room (so the digit is actually appended in place, with no boundary
crossing and no no-op), appending a digit and then deleting restores
every per-segment string. -/
theorem maskAppendDelete_inverse (s : MaskState) (d : Nat) (f : MaskFormat)
    (seg : MaskSegment)
    (hfind : f.segments.find? (fun x => x.type == s.activeSegment) = some seg)
    (hroom : (s.segments s.activeSegment).length < seg.length)
    (hd : d < 10) :
    ∀ t, (deleteCharFromMask (appendDigitToMask s d f) f).segments t = s.segments t := by
  intro t
  have happ : appendDigitToMask s d f =
      { s with segments := fun u =>
          if u = s.activeSegment then s.segments s.activeSegment ++ toString d
          else s.segments u } := by
    unfold appendDigitToMask
    rw [hfind]
    dsimp only
    rw [if_neg (by omega)]
  rw [happ]
  unfold deleteCharFromMask
  dsimp only
  rw [if_pos rfl]
  have hlen : (s.segments s.activeSegment ++ toString d).length > 0 := by
    rw [String.length_append]
    have h1 : (toString d).length = 1 := by
      show (toString d).data.length = 1
      rw [toString_digit_single hd]
      rfl
    omega
  rw [if_pos hlen]
  dsimp only
  by_cases ht : t = s.activeSegment
  · rw [if_pos ht, ht]
    have hdata : (s.segments s.activeSegment ++ toString d).data
        = (s.segments s.activeSegment).data ++ [Nat.digitChar d] := by
      rw [String.data_append, toString_digit_single hd]
    rw [hdata, List.dropLast_concat]
  · rw [if_neg ht, if_neg ht]

/-- C6 (witness): the amended theorem on the `"__"` mask holding `"1"`. -/
theorem maskAppendDelete_inverse_witness :
    simpleFmt2.segments.find? (fun x => x.type == maskStHalf1.activeSegment)
      = some { type := .integer, length := 2, startIndex := 0 } ∧
    (maskStHalf1.segments maskStHalf1.activeSegment).length < 2 ∧
    (deleteCharFromMask (appendDigitToMask maskStHalf1 5 simpleFmt2) simpleFmt2).segments
        .integer = maskStHalf1.segments .integer :=
  ⟨rfl, by decide,
    maskAppendDelete_inverse maskStHalf1 5 simpleFmt2
      { type := .integer, length := 2, startIndex := 0 } rfl (by decide) (by decide) .integer⟩

/-! ## Claim C9: frame conditions of the reducer -/

/-- C9: every dispatch clears `isPristine` and stamps `lastAction` with
the action's type; `submit` and unrecognized actions change nothing
else. -/
theorem reduceNumpad_frame (state : NumpadState) (action : NumpadAction)
    (config : NumpadConfig) :
    (reduceNumpad state action config).isPristine = false ∧
    (reduceNumpad state action config).lastAction = some (actionType action) ∧
    (action = .submit → reduceNumpad state action config
      = { state with lastAction := some "submit", isPristine := false }) ∧
    (∀ tag, action = .unknown tag → reduceNumpad state action config
      = { state with lastAction := some tag, isPristine := false }) := by
  refine ⟨?_, ?_, ?_, ?_⟩
  · unfold reduceNumpad
    cases action <;> dsimp only [maskHandle, standardHandle] <;> (repeat' split) <;> rfl
  · unfold reduceNumpad
    cases action <;> dsimp only [maskHandle, standardHandle, actionType] <;>
      (repeat' split) <;> rfl
  · rintro rfl
    rfl
  · rintro tag rfl
    unfold reduceNumpad
    dsimp only [maskHandle, standardHandle, actionType]
    (repeat' split) <;> rfl

/-- C9 (witness): the frame parts applied at a concrete state for
`submit` and for an unrecognized action. -/
theorem reduceNumpad_frame_witness :
    reduceNumpad plainState7 .submit defaultConfig
      = { plainState7 with lastAction := some "submit", isPristine := false } ∧
    reduceNumpad plainState7 (.unknown "bogus") defaultConfig
      = { plainState7 with lastAction := some "bogus", isPristine := false } :=
  ⟨(reduceNumpad_frame plainState7 .submit defaultConfig).2.2.1 rfl,
    (reduceNumpad_frame plainState7 (.unknown "bogus") defaultConfig).2.2.2 "bogus" rfl⟩

/-! ## Claim C8: the `displayRule` callback -/

/-- C8: in standard mode the callback receives the raw value; a returned
string overrides `formatted` entirely; a thrown callback is swallowed and
the default formatting (separator substitution plus decimal padding)
stands, as it does when no callback is supplied. -/
theorem formatDisplayValue_rule (state : NumpadState) (config : NumpadConfig)
    (rule : DisplayRule) (hmask : config.mask = none) :
    (∀ s, rule state.value config = .ok (some s) →
      (formatDisplayValue state config (some rule)).formatted = s) ∧
    (rule state.value config = .error () →
      (formatDisplayValue state config (some rule)).formatted
        = standardFormatted state.value config) ∧
    (formatDisplayValue state config none).formatted
      = standardFormatted state.value config := by
  unfold formatDisplayValue
  rw [hmask]
  dsimp only
  refine ⟨fun s hs => ?_, fun hs => ?_, rfl⟩
  · rw [hs]
  · rw [hs]

/-- C8 (witness): a returning rule overrides, a throwing rule falls back
to the default formatting. -/
theorem formatDisplayValue_rule_witness :
    (formatDisplayValue displayState5 padConfig2 (some constRule)).formatted = "custom" ∧
    (formatDisplayValue displayState5 padConfig2 (some throwRule)).formatted
      = standardFormatted displayState5.value padConfig2 ∧
    standardFormatted displayState5.value padConfig2 = "5.00" :=
  ⟨(formatDisplayValue_rule displayState5 padConfig2 constRule rfl).1 "custom" rfl,
    (formatDisplayValue_rule displayState5 padConfig2 throwRule rfl).2.1 rfl,
    by decide⟩

/-! ## The scan invariant of `sanitizeValue` -/

theorem scanChars_append (config : NumpadConfig) (a b : List Char) (st : ScanState) :
    scanChars config (a ++ b) st = scanChars config b (scanChars config a st) := by
  induction a generalizing st with
  | nil => rfl
  | cons c cs ih => rw [List.cons_append, scanChars, scanChars, ih]

theorem scanStep_inv (config : NumpadConfig) (st : ScanState) (c : Char)
    (h : ScanInv config st) : ScanInv config (scanStep config st c) := by
  unfold ScanInv at h ⊢
  obtain ⟨hneg, hrest⟩ := h
  unfold scanStep
  by_cases h1 : (c = '-' && config.allowNegative && !st.isNegative && st.chars.isEmpty) = true
  · rw [if_pos h1]
    simp only [Bool.and_eq_true, decide_eq_true_eq] at h1
    exact ⟨fun _ => h1.1.1.2, hrest⟩
  · rw [if_neg h1]
    by_cases h2 : (isDecimalChar config c && config.allowDecimal.truthy && !st.hasDecimal) = true
    · rw [if_pos h2]
      simp only [Bool.and_eq_true, Bool.not_eq_true'] at h2
      obtain ⟨⟨hdc, htr⟩, hnd⟩ := h2
      refine ⟨hneg, ?_⟩
      dsimp only
      rw [hnd] at hrest
      simp only [Bool.false_eq_true, if_false, if_true] at hrest ⊢
      exact ⟨htr, st.chars, [], rfl, fun x hx => ⟨(hrest x hx).1, (hrest x hx).2 htr⟩,
        fun x hx => absurd hx (List.not_mem_nil x)⟩
    · rw [if_neg h2]
      by_cases h3 : c.isDigit = true
      · rw [if_pos h3]
        by_cases h4 : maxDigitsReached config st.digitCount = true
        · rw [if_pos h4]
          exact ⟨hneg, hrest⟩
        · rw [if_neg h4]
          refine ⟨hneg, ?_⟩
          dsimp only
          by_cases h5 : st.hasDecimal = true
          · rw [h5] at hrest ⊢
            simp only [if_true] at hrest ⊢
            obtain ⟨htr, pre, post, heq, hpre, hpost⟩ := hrest
            refine ⟨htr, pre, post ++ [c], ?_, hpre, ?_⟩
            · rw [heq]
              simp
            · intro x hx
              rcases List.mem_append.mp hx with hx | hx
              · exact hpost x hx
              · rw [List.mem_singleton.mp hx]
                exact h3
          · have h5' : st.hasDecimal = false := by
              revert h5
              cases st.hasDecimal <;> simp
            rw [h5'] at hrest ⊢
            simp only [Bool.false_eq_true, if_false] at hrest ⊢
            intro x hx
            rcases List.mem_append.mp hx with hx | hx
            · exact hrest x hx
            · rw [List.mem_singleton.mp hx]
              refine ⟨h3, fun htr => ?_⟩
              by_contra hdc
              apply h2
              simp only [Bool.and_eq_true, Bool.not_eq_true']
              refine ⟨⟨?_, htr⟩, h5'⟩
              revert hdc
              cases isDecimalChar config c <;> simp
      · rw [if_neg h3]
        exact ⟨hneg, hrest⟩

theorem scanChars_inv (config : NumpadConfig) (l : List Char) :
    ∀ st, ScanInv config st → ScanInv config (scanChars config l st) := by
  induction l with
  | nil => exact fun st h => h
  | cons c cs ih =>
    intro st h
    rw [scanChars]
    exact ih _ (scanStep_inv config st c h)

theorem scanInv_init (config : NumpadConfig) : ScanInv config ⟨[], false, false, 0⟩ := by
  unfold ScanInv
  constructor
  · intro h
    simp at h
  · simp only [Bool.false_eq_true, if_false]
    intro c hc
    cases hc

/-! ## Shape of `normalizeLeadingZeros` and the sign/separator invariant -/

theorem takeWhile_to_dot (a b : List Char) (ha : '.' ∉ a) :
    (a ++ '.' :: b).takeWhile (· ≠ '.') = a := by
  induction a with
  | nil =>
    rw [List.nil_append, List.takeWhile_cons, if_neg (by simp)]
  | cons c cs ih =>
    have hc : c ≠ '.' := fun hh => ha (by simp [hh])
    rw [List.cons_append, List.takeWhile_cons, if_pos (by simp [hc]),
      ih (fun hm => ha (List.mem_cons_of_mem _ hm))]

theorem digit_ne_minus {c : Char} (h : c.isDigit = true) : c ≠ '-' := by
  rintro rfl
  exact absurd h (by decide)

theorem digit_ne_dot {c : Char} (h : c.isDigit = true) : c ≠ '.' := by
  rintro rfl
  exact absurd h (by decide)

theorem count_dot_zero {l : List Char} (h : ∀ c ∈ l, c.isDigit = true) :
    l.count '.' = 0 :=
  List.count_eq_zero.mpr (fun hm => digit_ne_dot (h '.' hm) rfl)

theorem mem_stripLeadingZeros {l : List Char} {c : Char}
    (hc : c ∈ stripLeadingZeros l) : c ∈ l ∨ c = '0' := by
  unfold stripLeadingZeros at hc
  by_cases hz : (l.takeWhile (· = '0')).isEmpty = true
  · rw [if_pos hz] at hc
    exact Or.inl hc
  · rw [if_neg hz] at hc
    cases hh : (l.drop (l.takeWhile (· = '0')).length).head? with
    | some d =>
      rw [hh] at hc
      dsimp only at hc
      by_cases hd : d.isDigit = true
      · rw [if_pos hd] at hc
        exact Or.inl (List.drop_subset _ _ hc)
      · rw [if_neg hd] at hc
        rcases List.mem_cons.mp hc with rfl | h'
        · exact Or.inr rfl
        · exact Or.inl (List.drop_subset _ _ h')
    | none =>
      rw [hh] at hc
      dsimp only at hc
      rcases List.mem_cons.mp hc with rfl | h'
      · exact Or.inr rfl
      · exact Or.inl (List.drop_subset _ _ h')

theorem stripOrZero_digits {l : List Char} (h : ∀ c ∈ l, c.isDigit = true) :
    ∀ c ∈ stripOrZero l, c.isDigit = true := by
  intro c hc
  unfold stripOrZero at hc
  by_cases he : (stripLeadingZeros l).isEmpty = true
  · rw [if_pos he] at hc
    rw [List.mem_singleton.mp hc]
    decide
  · rw [if_neg he] at hc
    rcases mem_stripLeadingZeros hc with h' | rfl
    · exact h c h'
    · decide

theorem normalize_decimal_shape (pre post : List Char) (hpre : '.' ∉ pre) :
    normalizeLeadingZeros (pre ++ '.' :: post) true = stripOrZero pre ++ '.' :: post := by
  unfold normalizeLeadingZeros
  rw [if_neg (by simp), if_pos rfl]
  rw [takeWhile_to_dot pre post hpre]
  dsimp only
  rw [List.drop_left pre ('.' :: post)]
  simp only [List.drop_succ_cons, List.drop_zero]
  by_cases hp : post.isEmpty = true
  · have hpe : post = [] := by
      cases post
      · rfl
      · simp at hp
    subst hpe
    simp
  · rw [if_neg (by simpa using hp)]

theorem signSep_empty : signSepInvariant "" := by
  unfold signSepInvariant
  refine ⟨by decide, ?_, by decide⟩
  intro c hc
  simp at hc

theorem signSep_minus : signSepInvariant "-" := by
  unfold signSepInvariant
  refine ⟨by decide, ?_, by decide⟩
  intro c hc
  simp at hc

theorem signSep_of_concat (neg : Bool) (body : List Char)
    (h1 : ∀ c ∈ body, c ≠ '-') (h2 : body.count '.' ≤ 1) :
    signSepInvariant (String.mk ((if neg then ['-'] else []) ++ body)) := by
  unfold signSepInvariant
  have hb : body.count '-' = 0 := List.count_eq_zero.mpr (fun hm => h1 '-' hm rfl)
  refine ⟨?_, ?_, ?_⟩
  · cases neg <;> simp [List.count_append, hb]
  · cases neg
    · intro c hc
      simp at hc
      exact h1 c (List.mem_of_mem_tail hc)
    · intro c hc
      simp at hc
      exact h1 c hc
  · cases neg <;> simp [List.count_append, h2]

theorem sanitizeValue_invariant (value : String) (config : NumpadConfig) :
    signSepInvariant (sanitizeValue value config) := by
  have hinv := scanChars_inv config (jsTrim value.data) ⟨[], false, false, 0⟩ (scanInv_init config)
  unfold ScanInv at hinv
  obtain ⟨-, hrest⟩ := hinv
  unfold sanitizeValue
  dsimp only
  set st := scanChars config (jsTrim value.data) ⟨[], false, false, 0⟩ with hst
  have hbody : (∀ c ∈ normalizeLeadingZeros st.chars st.hasDecimal, c ≠ '-') ∧
      (normalizeLeadingZeros st.chars st.hasDecimal).count '.' ≤ 1 := by
    by_cases hdec : st.hasDecimal = true
    · rw [hdec] at hrest
      simp only [if_true] at hrest
      obtain ⟨htr, pre, post, heq, hpre, hpost⟩ := hrest
      have hpd : ∀ c ∈ pre, c.isDigit = true := fun c hc => (hpre c hc).1
      have hnd : '.' ∉ pre := fun hm => digit_ne_dot (hpd '.' hm) rfl
      rw [hdec, heq, normalize_decimal_shape pre post hnd]
      constructor
      · intro c hc
        rcases List.mem_append.mp hc with hc | hc
        · exact digit_ne_minus (stripOrZero_digits hpd c hc)
        · rcases List.mem_cons.mp hc with rfl | hc
          · decide
          · exact digit_ne_minus (hpost c hc)
      · rw [List.count_append, count_dot_zero (stripOrZero_digits hpd), List.count_cons,
          count_dot_zero hpost]
        simp
    · have hdec' : st.hasDecimal = false := by
        revert hdec
        cases st.hasDecimal <;> simp
      rw [hdec'] at hrest
      simp only [Bool.false_eq_true, if_false] at hrest
      have hdig : ∀ c ∈ st.chars, c.isDigit = true := fun c hc => (hrest c hc).1
      rw [hdec']
      unfold normalizeLeadingZeros
      by_cases hnil : st.chars.isEmpty = true
      · rw [if_pos hnil]
        exact ⟨fun c hc => absurd hc (List.not_mem_nil c), by simp⟩
      · rw [if_neg hnil]
        simp only [Bool.false_eq_true, if_false]
        refine ⟨fun c hc => digit_ne_minus (stripOrZero_digits hdig c hc), ?_⟩
        rw [count_dot_zero (stripOrZero_digits hdig)]
        exact Nat.zero_le 1
  obtain ⟨hnm, hcnt⟩ := hbody
  by_cases hempty : (normalizeLeadingZeros st.chars st.hasDecimal).isEmpty = true
  · rw [if_pos hempty]
    cases hni : st.isNegative
    · exact signSep_empty
    · exact signSep_minus
  · rw [if_neg hempty]
    exact signSep_of_concat st.isNegative _ hnm hcnt

theorem digitChar_isDigit {n : Nat} (h : n < 10) : (Nat.digitChar n).isDigit = true := by
  interval_cases n <;> decide

theorem toDigitsCore_digits :
    ∀ (f n : Nat) (l : List Char), (∀ c ∈ l, c.isDigit = true) →
      ∀ c ∈ Nat.toDigitsCore 10 f n l, c.isDigit = true := by
  intro f
  induction f with
  | zero =>
    intro n l hl
    simpa [Nat.toDigitsCore] using hl
  | succ f ih =>
    intro n l hl c hc
    rw [Nat.toDigitsCore] at hc
    by_cases hdiv : n / 10 = 0
    · rw [if_pos hdiv] at hc
      rcases List.mem_cons.mp hc with rfl | hc'
      · exact digitChar_isDigit (Nat.mod_lt _ (by norm_num))
      · exact hl c hc'
    · rw [if_neg hdiv] at hc
      refine ih (n / 10) (Nat.digitChar (n % 10) :: l) ?_ c hc
      intro x hx
      rcases List.mem_cons.mp hx with rfl | hx'
      · exact digitChar_isDigit (Nat.mod_lt _ (by norm_num))
      · exact hl x hx'

theorem toString_nat_digits (n : Nat) : ∀ c ∈ (toString n).data, c.isDigit = true := by
  have hdef : (toString n).data = Nat.toDigitsCore 10 (n + 1) n [] := rfl
  rw [hdef]
  exact toDigitsCore_digits (n + 1) n [] (fun c hc => absurd hc (List.not_mem_nil c))

theorem signSep_of_parts (sign body : List Char) (hs : sign = ['-'] ∨ sign = [])
    (h1 : ∀ c ∈ body, c ≠ '-') (h2 : body.count '.' ≤ 1) :
    signSepInvariant (String.mk (sign ++ body)) := by
  unfold signSepInvariant
  have hb : body.count '-' = 0 := List.count_eq_zero.mpr (fun hm => h1 '-' hm rfl)
  rcases hs with rfl | rfl
  · refine ⟨?_, ?_, ?_⟩
    · simp [List.count_append, hb]
    · intro c hc
      simp at hc
      exact h1 c hc
    · simp [List.count_append, h2]
  · refine ⟨?_, ?_, ?_⟩
    · simp [hb]
    · intro c hc
      simp at hc
      exact h1 c (List.mem_of_mem_tail hc)
    · simpa using h2

theorem unsigned_facts (current : String) (h : signSepInvariant current) :
    (∀ c ∈ (if current.data.head? = some '-' then current.data.tail else current.data),
        c ≠ '-') ∧
    (if current.data.head? = some '-' then current.data.tail else current.data).count '.'
      ≤ 1 := by
  obtain ⟨h1, h2, h3⟩ := h
  by_cases hh : current.data.head? = some '-'
  · rw [if_pos hh]
    constructor
    · intro c hc
      apply h2
      rw [List.drop_one]
      exact hc
    · exact le_trans ((List.tail_sublist current.data).count_le '.') h3
  · rw [if_neg hh]
    refine ⟨?_, h3⟩
    intro c hc
    cases hd : current.data with
    | nil =>
      rw [hd] at hc
      cases hc
    | cons a as =>
      rw [hd] at hc
      rcases List.mem_cons.mp hc with rfl | hc'
      · intro ha
        apply hh
        rw [hd, ha]
        rfl
      · apply h2
        rw [hd, List.drop_one]
        simpa using hc'

theorem appendDigit_inv (current : String) (d : Nat) (config : NumpadConfig)
    (h : signSepInvariant current) : signSepInvariant (appendDigit current d config) := by
  obtain ⟨hu1, hu2⟩ := unsigned_facts current h
  have hdig0 : ∀ (hd : Bool) (c : Char),
      c ∈ (if (decide (d = 0) && !hd) = true then ['0'] else (toString d).data) →
      c.isDigit = true := by
    intro hd c hc
    split at hc
    · rw [List.mem_singleton.mp hc]
      decide
    · exact toString_nat_digits d c hc
  unfold appendDigit
  dsimp only
  by_cases hneg : current.data.head? = some '-' <;>
    simp only [hneg, if_true, if_false, not_false_iff] <;>
    [rw [if_pos hneg] at hu1 hu2; rw [if_neg hneg] at hu1 hu2] <;>
    split
  · exact h
  · split
    · exact h
    · split
      · exact signSep_of_parts ['-'] _ (Or.inl rfl)
          (fun c hc => digit_ne_minus (hdig0 _ c hc))
          (by rw [count_dot_zero (hdig0 _)]; exact Nat.zero_le 1)
      · rw [List.append_assoc]
        refine signSep_of_parts ['-'] _ (Or.inl rfl) ?_ ?_
        · intro c hc
          rcases List.mem_append.mp hc with hc | hc
          · exact hu1 c hc
          · exact digit_ne_minus (toString_nat_digits d c hc)
        · rw [List.count_append, count_dot_zero (toString_nat_digits d)]
          simpa using hu2
  · exact h
  · split
    · exact h
    · split
      · exact signSep_of_parts [] _ (Or.inr rfl)
          (fun c hc => digit_ne_minus (hdig0 _ c hc))
          (by rw [count_dot_zero (hdig0 _)]; exact Nat.zero_le 1)
      · rw [List.append_assoc]
        refine signSep_of_parts [] _ (Or.inr rfl) ?_ ?_
        · intro c hc
          rcases List.mem_append.mp hc with hc | hc
          · exact hu1 c hc
          · exact digit_ne_minus (toString_nat_digits d c hc)
        · rw [List.count_append, count_dot_zero (toString_nat_digits d)]
          simpa using hu2

theorem appendDecimal_inv (current : String) (config : NumpadConfig)
    (h : signSepInvariant current) : signSepInvariant (appendDecimal current config) := by
  obtain ⟨hu1, hu2⟩ := unsigned_facts current h
  unfold appendDecimal
  split
  · exact h
  · dsimp only
    by_cases hneg : current.data.head? = some '-' <;>
      simp only [hneg, if_true, if_false, not_false_iff] <;>
      [rw [if_pos hneg] at hu1 hu2; rw [if_neg hneg] at hu1 hu2] <;>
      split
    · exact h
    · next hcont =>
      have hdot : '.' ∉ current.data.tail := fun hm => hcont (by simpa using hm)
      rw [List.append_assoc]
      refine signSep_of_parts ['-'] _ (Or.inl rfl) ?_ ?_
      · intro c hc
        rcases List.mem_append.mp hc with hc | hc
        · split at hc
          · rw [List.mem_singleton.mp hc]
            decide
          · exact hu1 c hc
        · rw [List.mem_singleton.mp hc]
          decide
      · rw [List.count_append]
        have hbase : (if current.data.tail.isEmpty = true then ['0']
            else current.data.tail).count '.' = 0 := by
          split
          · rfl
          · exact List.count_eq_zero.mpr hdot
        rw [hbase]
        simp
    · exact h
    · next hcont =>
      have hdot : '.' ∉ current.data := fun hm => hcont (by simpa using hm)
      rw [List.append_assoc]
      refine signSep_of_parts [] _ (Or.inr rfl) ?_ ?_
      · intro c hc
        rcases List.mem_append.mp hc with hc | hc
        · split at hc
          · rw [List.mem_singleton.mp hc]
            decide
          · exact hu1 c hc
        · rw [List.mem_singleton.mp hc]
          decide
      · rw [List.count_append]
        have hbase : (if current.data.isEmpty = true then ['0']
            else current.data).count '.' = 0 := by
          split
          · rfl
          · exact List.count_eq_zero.mpr hdot
        rw [hbase]
        simp

theorem deleteChar_inv (current : String) (h : signSepInvariant current) :
    signSepInvariant (deleteChar current) := by
  unfold deleteChar
  split
  · exact h
  · dsimp only
    split
    · exact signSep_empty
    · obtain ⟨h1, h2, h3⟩ := h
      refine ⟨?_, ?_, ?_⟩
      · exact le_trans ((List.dropLast_sublist _).count_le '-') h1
      · intro c hc
        apply h2
        have hs : List.Sublist (current.data.dropLast.drop 1) (current.data.drop 1) := by
          rw [List.dropLast_eq_take, List.drop_take]
          exact List.take_sublist _ _
        exact hs.subset hc
      · exact le_trans ((List.dropLast_sublist _).count_le '.') h3

theorem toggleSign_inv (current : String) (config : NumpadConfig)
    (h : signSepInvariant current) : signSepInvariant (toggleSign current config) := by
  unfold toggleSign
  split
  · exact h
  · split
    · exact signSep_minus
    · split
      · -- drop the sign
        obtain ⟨h1, h2, h3⟩ := h
        refine ⟨?_, ?_, ?_⟩
        · show current.data.tail.count '-' ≤ 1
          rw [List.count_eq_zero.mpr
            (fun hm => h2 '-' (by rw [List.drop_one]; exact hm) rfl)]
          exact Nat.zero_le 1
        · intro c hc
          have hc' : c ∈ current.data.tail.drop 1 := hc
          apply h2
          rw [List.drop_one]
          exact List.drop_subset _ _ hc'
        · show current.data.tail.count '.' ≤ 1
          exact le_trans ((List.tail_sublist current.data).count_le '.') h3
      · -- add the sign
        next hh =>
        have hd := (unsigned_facts current h).1
        rw [if_neg hh] at hd
        obtain ⟨-, -, h3⟩ := h
        refine ⟨?_, ?_, ?_⟩
        · rw [show ('-' :: current.data).count '-' = current.data.count '-' + 1 from
            by rw [List.count_cons]; simp]
          rw [List.count_eq_zero.mpr (fun hm => hd '-' hm rfl)]
        · intro c hc
          rw [List.drop_succ_cons, List.drop_zero] at hc
          exact hd c hc
        · rw [show ('-' :: current.data).count '.' = current.data.count '.' from
            by rw [List.count_cons]; simp]
          exact h3

theorem reduceNumpad_inv (state : NumpadState) (action : NumpadAction)
    (config : NumpadConfig) (hmask : config.mask = none)
    (h : signSepInvariant state.value) :
    signSepInvariant (reduceNumpad state action config).value := by
  have hcond : (maskTruthy config.mask && state.maskState.isSome) = false := by
    rw [hmask]
    rfl
  unfold reduceNumpad
  cases action with
  | submit => exact h
  | digit d =>
    rw [hcond]
    simp only [Bool.false_eq_true, if_false, standardHandle]
    exact appendDigit_inv state.value d config h
  | decimal =>
    rw [hcond]
    simp only [Bool.false_eq_true, if_false, standardHandle]
    exact appendDecimal_inv state.value config h
  | delete =>
    rw [hcond]
    simp only [Bool.false_eq_true, if_false, standardHandle]
    exact deleteChar_inv state.value h
  | clear =>
    rw [hcond]
    simp only [Bool.false_eq_true, if_false, standardHandle]
    exact signSep_empty
  | toggleSign =>
    rw [hcond]
    simp only [Bool.false_eq_true, if_false, standardHandle]
    exact toggleSign_inv state.value config h
  | set v =>
    rw [hcond]
    simp only [Bool.false_eq_true, if_false, standardHandle]
    exact sanitizeValue_invariant v config
  | unknown tag =>
    rw [hcond]
    simp only [Bool.false_eq_true, if_false, standardHandle]
    exact h

/-! ## Claim C5: the sign/separator invariant of standard-mode values -/

/-- C5: starting from `createNumpadState` in standard (non-mask) mode,
every sequence of reducer actions leaves a `value` with at most one `-`
(and only at index 0) and at most one `.`. -/
theorem standard_mode_value_invariant (initialValue : String) (config : NumpadConfig)
    (hmask : config.mask = none) (actions : List NumpadAction) :
    signSepInvariant
      (runActions (createNumpadState initialValue config) actions config).value := by
  have hinit : signSepInvariant (createNumpadState initialValue config).value := by
    unfold createNumpadState
    rw [hmask]
    exact sanitizeValue_invariant initialValue config
  suffices hgen : ∀ (acts : List NumpadAction) (st : NumpadState),
      signSepInvariant st.value → signSepInvariant (runActions st acts config).value by
    exact hgen actions _ hinit
  intro acts
  induction acts with
  | nil => exact fun st hst => hst
  | cons a as ih =>
    intro st hst
    exact ih _ (reduceNumpad_inv st a config hmask hst)

/-- C5 (witness): the invariant after a concrete action sequence in
standard mode. -/
theorem standard_mode_value_invariant_witness :
    signSepInvariant (runActions (createNumpadState "" defaultConfig)
      [.digit 1, .decimal, .digit 5, .toggleSign] defaultConfig).value :=
  standard_mode_value_invariant "" defaultConfig rfl
    [.digit 1, .decimal, .digit 5, .toggleSign]

/-! ## Claim C4 (amended): idempotence of `sanitizeValue` without a digit budget -/

theorem sanitizeValue_eq_assemble (value : String) (config : NumpadConfig) :
    sanitizeValue value config
      = assembleSanitized (scanChars config (jsTrim value.data) ⟨[], false, false, 0⟩) := rfl

theorem dropWhile_eq_self_of {l : List Char} {p : Char → Bool}
    (h : ∀ c ∈ l, p c = false) : l.dropWhile p = l := by
  cases l with
  | nil => rfl
  | cons a as =>
    rw [List.dropWhile_cons, if_neg (by rw [h a (List.mem_cons_self a as)]; simp)]

theorem jsTrim_eq_self {l : List Char} (h : ∀ c ∈ l, isJsWhitespace c = false) :
    jsTrim l = l := by
  unfold jsTrim
  rw [dropWhile_eq_self_of h,
    dropWhile_eq_self_of (fun c hc => h c (List.mem_reverse.mp hc)),
    List.reverse_reverse]

theorem digit_not_ws {c : Char} (h : c.isDigit = true) : isJsWhitespace c = false := by
  unfold isJsWhitespace
  have h1 : c ≠ ' ' := fun hh => by rw [hh] at h; exact absurd h (by decide)
  have h2 : c ≠ '\t' := fun hh => by rw [hh] at h; exact absurd h (by decide)
  have h3 : c ≠ '\n' := fun hh => by rw [hh] at h; exact absurd h (by decide)
  have h4 : c ≠ '\r' := fun hh => by rw [hh] at h; exact absurd h (by decide)
  have h5 : c ≠ '\x0b' := fun hh => by rw [hh] at h; exact absurd h (by decide)
  have h6 : c ≠ '\x0c' := fun hh => by rw [hh] at h; exact absurd h (by decide)
  simp [h1, h2, h3, h4, h5, h6]

theorem isEmpty_false_of_ne {l : List Char} (h : l ≠ []) : l.isEmpty = false := by
  cases l with
  | nil => exact absurd rfl h
  | cons a as => rfl

theorem maxDigitsReached_none {config : NumpadConfig} (h : config.maxDigits = none)
    (n : Nat) : maxDigitsReached config n = false := by
  unfold maxDigitsReached
  rw [h]

theorem isDecimalChar_dot (config : NumpadConfig) : isDecimalChar config '.' = true := by
  unfold isDecimalChar
  simp

theorem scanStep_digit {config : NumpadConfig} {st : ScanState} {c : Char}
    (hmax : config.maxDigits = none) (hdig : c.isDigit = true)
    (hdec : st.hasDecimal = false →
      (isDecimalChar config c && config.allowDecimal.truthy) = false) :
    scanStep config st c =
      { st with chars := st.chars ++ [c], digitCount := st.digitCount + 1 } := by
  have h1 : ¬((c = '-' && config.allowNegative && !st.isNegative
      && st.chars.isEmpty) = true) := by
    intro hg
    simp only [Bool.and_eq_true, decide_eq_true_eq] at hg
    exact digit_ne_minus hdig hg.1.1.1
  have h2 : ¬((isDecimalChar config c && config.allowDecimal.truthy
      && !st.hasDecimal) = true) := by
    intro hg
    simp only [Bool.and_eq_true, Bool.not_eq_true'] at hg
    obtain ⟨⟨hA, hB⟩, hd⟩ := hg
    have hf := hdec hd
    rw [hA, hB] at hf
    exact absurd hf (by decide)
  unfold scanStep
  rw [if_neg h1, if_neg h2, if_pos hdig,
    if_neg (by rw [maxDigitsReached_none hmax]; simp)]

theorem scanChars_digit_run {config : NumpadConfig} (hmax : config.maxDigits = none)
    (l : List Char) : ∀ st : ScanState, (∀ c ∈ l, c.isDigit = true) →
    (st.hasDecimal = false →
      ∀ c ∈ l, (isDecimalChar config c && config.allowDecimal.truthy) = false) →
    scanChars config l st
      = { st with chars := st.chars ++ l, digitCount := st.digitCount + l.length } := by
  induction l with
  | nil =>
    intro st _ _
    rw [scanChars]
    simp
  | cons c cs ih =>
    intro st hdig hcond
    rw [scanChars, scanStep_digit hmax (hdig c (List.mem_cons_self c cs))
        (fun hd => hcond hd c (List.mem_cons_self c cs)),
      ih { st with chars := st.chars ++ [c], digitCount := st.digitCount + 1 }
        (fun x hx => hdig x (List.mem_cons_of_mem c hx))
        (fun hd x hx => hcond hd x (List.mem_cons_of_mem c hx))]
    dsimp only
    have harith : st.digitCount + 1 + cs.length = st.digitCount + (c :: cs).length := by
      rw [List.length_cons]
      omega
    rw [List.append_assoc, List.singleton_append, harith]

theorem scanStep_decimal {config : NumpadConfig} {st : ScanState} {c : Char}
    (hc : isDecimalChar config c = true) (ht : config.allowDecimal.truthy = true)
    (hd : st.hasDecimal = false) (hm : c ≠ '-') :
    scanStep config st c = { st with chars := st.chars ++ ['.'], hasDecimal := true } := by
  unfold scanStep
  rw [if_neg (fun hg => by
      simp only [Bool.and_eq_true, decide_eq_true_eq] at hg
      exact hm hg.1.1.1),
    if_pos (by rw [hc, ht, hd]; rfl)]

theorem scanStep_skip {config : NumpadConfig} {st : ScanState} {c : Char}
    (hd : st.hasDecimal = true) (hdig : c.isDigit = false) (hm : c ≠ '-') :
    scanStep config st c = st := by
  unfold scanStep
  rw [if_neg (fun hg => by
      simp only [Bool.and_eq_true, decide_eq_true_eq] at hg
      exact hm hg.1.1.1),
    if_neg (by rw [hd]; simp),
    if_neg (by rw [hdig]; simp)]

theorem scanStep_sign {config : NumpadConfig} {st : ScanState}
    (hn : config.allowNegative = true) (hc : st.chars = []) (hi : st.isNegative = false) :
    scanStep config st '-' = { st with isNegative := true } := by
  unfold scanStep
  rw [if_pos (by rw [hn, hi, hc]; decide)]

theorem scanChars_sign (config : NumpadConfig) (neg : Bool)
    (hnegOk : neg = true → config.allowNegative = true) :
    scanChars config (if neg then ['-'] else []) ⟨[], false, false, 0⟩
      = ⟨[], false, neg, 0⟩ := by
  cases neg
  · rfl
  · show scanChars config ['-'] ⟨[], false, false, 0⟩ = ⟨[], false, true, 0⟩
    rw [scanChars, scanStep_sign (hnegOk rfl) rfl rfl]
    rfl

theorem drop_takeWhile_length (p : Char → Bool) :
    ∀ l : List Char, l.drop (l.takeWhile p).length = l.dropWhile p := by
  intro l
  induction l with
  | nil => rfl
  | cons a as ih =>
    rw [List.takeWhile_cons, List.dropWhile_cons]
    by_cases ha : p a = true
    · rw [if_pos ha, if_pos ha, List.length_cons, List.drop_succ_cons]
      exact ih
    · rw [if_neg ha, if_neg ha]
      rfl

theorem mem_of_mem_dropWhile {p : Char → Bool} {c : Char} :
    ∀ l : List Char, c ∈ l.dropWhile p → c ∈ l := by
  intro l
  induction l with
  | nil => intro h; simp at h
  | cons a as ih =>
    intro h
    rw [List.dropWhile_cons] at h
    by_cases ha : p a = true
    · rw [if_pos ha] at h
      exact List.mem_cons_of_mem a (ih h)
    · rw [if_neg ha] at h
      exact h

theorem dropWhile_head_not {p : Char → Bool} :
    ∀ {l : List Char} {x : Char} {xs : List Char}, l.dropWhile p = x :: xs → p x = false := by
  intro l
  induction l with
  | nil => intro x xs h; simp at h
  | cons a as ih =>
    intro x xs h
    rw [List.dropWhile_cons] at h
    by_cases ha : p a = true
    · rw [if_pos ha] at h
      exact ih h
    · rw [if_neg ha] at h
      injection h with h1 h2
      rw [← h1]
      revert ha
      cases p a <;> simp

theorem stripLeadingZeros_eq_of_cons {l : List Char} {x : Char} {xs : List Char}
    (hdp : l.dropWhile (· = '0') = x :: xs) (hx : x.isDigit = true) :
    stripLeadingZeros l = x :: xs := by
  unfold stripLeadingZeros
  dsimp only
  by_cases hz : (l.takeWhile (· = '0')).isEmpty = true
  · rw [if_pos hz]
    have hzz : l.takeWhile (· = '0') = [] := by
      cases hzt : l.takeWhile (· = '0') with
      | nil => rfl
      | cons a as => rw [hzt] at hz; simp at hz
    have := List.takeWhile_append_dropWhile (p := (fun c => decide (c = '0'))) (l := l)
    rw [hzz, hdp, List.nil_append] at this
    exact this.symm
  · rw [if_neg hz, drop_takeWhile_length, hdp, List.head?_cons]
    dsimp only
    rw [if_pos hx]

theorem stripLeadingZeros_eq_zero_of_nil {l : List Char}
    (hdp : l.dropWhile (· = '0') = [])
    (hz : (l.takeWhile (· = '0')).isEmpty = false) :
    stripLeadingZeros l = ['0'] := by
  unfold stripLeadingZeros
  dsimp only
  rw [hz]
  simp only [Bool.false_eq_true, if_false]
  rw [drop_takeWhile_length, hdp, List.head?_nil]

theorem stripOrZero_shape {l : List Char} (h : ∀ c ∈ l, c.isDigit = true) :
    stripOrZero l = ['0'] ∨ ∃ d ds, stripOrZero l = d :: ds ∧ d ≠ '0' := by
  cases hdp : l.dropWhile (· = '0') with
  | nil =>
    left
    by_cases hz : (l.takeWhile (· = '0')).isEmpty = true
    · have hzz : l.takeWhile (· = '0') = [] := by
        cases hzt : l.takeWhile (· = '0') with
        | nil => rfl
        | cons a as => rw [hzt] at hz; simp at hz
      have hl : l = [] := by
        have := List.takeWhile_append_dropWhile (p := (fun c => decide (c = '0'))) (l := l)
        rw [hzz, hdp, List.nil_append] at this
        exact this.symm
      rw [hl]
      rfl
    · have hz' : (l.takeWhile (· = '0')).isEmpty = false := by
        revert hz; cases (l.takeWhile (· = '0')).isEmpty <;> simp
      unfold stripOrZero
      dsimp only
      rw [stripLeadingZeros_eq_zero_of_nil hdp hz']
      rfl
  | cons x xs =>
    have hxmem : x ∈ l :=
      mem_of_mem_dropWhile l (by rw [hdp]; exact List.mem_cons_self x xs)
    have hxne : x ≠ '0' := of_decide_eq_false (dropWhile_head_not hdp)
    right
    refine ⟨x, xs, ?_, hxne⟩
    unfold stripOrZero
    dsimp only
    rw [stripLeadingZeros_eq_of_cons hdp (h x hxmem)]
    rfl

theorem stripLeadingZeros_cons_ne {d : Char} {ds : List Char} (hd : d ≠ '0') :
    stripLeadingZeros (d :: ds) = d :: ds := by
  unfold stripLeadingZeros
  dsimp only
  rw [List.takeWhile_cons, if_neg (fun hx => hd (of_decide_eq_true hx))]
  rfl

theorem stripOrZero_cons_ne_zero {d : Char} {ds : List Char} (hd : d ≠ '0') :
    stripOrZero (d :: ds) = d :: ds := by
  unfold stripOrZero
  dsimp only
  rw [stripLeadingZeros_cons_ne hd]
  rfl

theorem stripOrZero_idem {l : List Char} (h : ∀ c ∈ l, c.isDigit = true) :
    stripOrZero (stripOrZero l) = stripOrZero l := by
  rcases stripOrZero_shape h with h0 | ⟨d, ds, heq, hd⟩
  · rw [h0]
    decide
  · rw [heq]
    exact stripOrZero_cons_ne_zero hd

theorem mem_stripOrZero_self {l : List Char} {c : Char} (hne : l ≠ [])
    (hdig : ∀ x ∈ l, x.isDigit = true) (hc : c ∈ stripOrZero l) : c ∈ l := by
  cases hdp : l.dropWhile (· = '0') with
  | nil =>
    by_cases hz : (l.takeWhile (· = '0')).isEmpty = true
    · exfalso
      apply hne
      have hzz : l.takeWhile (· = '0') = [] := by
        cases hzt : l.takeWhile (· = '0') with
        | nil => rfl
        | cons a as => rw [hzt] at hz; simp at hz
      have := List.takeWhile_append_dropWhile (p := (fun x => decide (x = '0'))) (l := l)
      rw [hzz, hdp, List.nil_append] at this
      exact this.symm
    · have hz' : (l.takeWhile (· = '0')).isEmpty = false := by
        revert hz; cases (l.takeWhile (· = '0')).isEmpty <;> simp
      have h0 : stripOrZero l = ['0'] := by
        unfold stripOrZero
        dsimp only
        rw [stripLeadingZeros_eq_zero_of_nil hdp hz']
        rfl
      rw [h0] at hc
      have hc0 : c = '0' := List.mem_singleton.mp hc
      cases l with
      | nil => exact absurd rfl hne
      | cons a as =>
        by_cases ha : a = '0'
        · rw [hc0, ← ha]
          exact List.mem_cons_self a as
        · rw [List.takeWhile_cons,
            if_neg (fun hx => ha (of_decide_eq_true hx))] at hz'
          simp at hz'
  | cons x xs =>
    have hxd : x.isDigit = true :=
      hdig x (mem_of_mem_dropWhile l (by rw [hdp]; exact List.mem_cons_self x xs))
    have hst : stripOrZero l = x :: xs := by
      unfold stripOrZero
      dsimp only
      rw [stripLeadingZeros_eq_of_cons hdp hxd]
      rfl
    rw [hst, ← hdp] at hc
    exact mem_of_mem_dropWhile l hc

theorem stripOrZero_ne_nil (l : List Char) : stripOrZero l ≠ [] := by
  unfold stripOrZero
  dsimp only
  by_cases he : (stripLeadingZeros l).isEmpty = true
  · rw [if_pos he]
    simp
  · rw [if_neg he]
    intro hh
    rw [hh] at he
    exact he rfl

theorem normalize_plain (l : List Char) (hne : l ≠ []) :
    normalizeLeadingZeros l false = stripOrZero l := by
  unfold normalizeLeadingZeros
  rw [isEmpty_false_of_ne hne]
  simp only [Bool.false_eq_true, if_false]

theorem sanitize_scan_plain_case (config : NumpadConfig)
    (hmax : config.maxDigits = none)
    (neg : Bool) (hnegOk : neg = true → config.allowNegative = true)
    (T : List Char) (hTne : T ≠ []) (hTdig : ∀ c ∈ T, c.isDigit = true)
    (hTcond : ∀ c ∈ T, (isDecimalChar config c && config.allowDecimal.truthy) = false)
    (hTfix : stripOrZero T = T) :
    sanitizeValue (String.mk ((if neg then ['-'] else []) ++ T)) config
      = String.mk ((if neg then ['-'] else []) ++ T) := by
  have hws : ∀ c ∈ (if neg then ['-'] else []) ++ T, isJsWhitespace c = false := by
    intro c hc
    rcases List.mem_append.mp hc with hc | hc
    · cases neg
      · simp at hc
      · rw [List.mem_singleton.mp hc]
        decide
    · exact digit_not_ws (hTdig c hc)
  unfold sanitizeValue
  dsimp only
  rw [jsTrim_eq_self hws, scanChars_append, scanChars_sign config neg hnegOk,
    scanChars_digit_run hmax T _ hTdig (fun _ => hTcond)]
  dsimp only
  simp only [List.nil_append]
  rw [normalize_plain T hTne, hTfix, isEmpty_false_of_ne hTne]
  simp only [Bool.false_eq_true, if_false]

theorem sanitize_scan_decimal_case (config : NumpadConfig)
    (hmax : config.maxDigits = none) (htr : config.allowDecimal.truthy = true)
    (neg : Bool) (hnegOk : neg = true → config.allowNegative = true)
    (T post : List Char) (hTdig : ∀ c ∈ T, c.isDigit = true)
    (hpostdig : ∀ c ∈ post, c.isDigit = true)
    (hTcond : ∀ c ∈ T, (isDecimalChar config c && config.allowDecimal.truthy) = false)
    (hTfix : stripOrZero T = T) :
    sanitizeValue (String.mk ((if neg then ['-'] else []) ++ (T ++ '.' :: post))) config
      = String.mk ((if neg then ['-'] else []) ++ (T ++ '.' :: post)) := by
  have hws : ∀ c ∈ (if neg then ['-'] else []) ++ (T ++ '.' :: post),
      isJsWhitespace c = false := by
    intro c hc
    rcases List.mem_append.mp hc with hc | hc
    · cases neg
      · simp at hc
      · rw [List.mem_singleton.mp hc]
        decide
    · rcases List.mem_append.mp hc with hc | hc
      · exact digit_not_ws (hTdig c hc)
      · rcases List.mem_cons.mp hc with rfl | hc
        · decide
        · exact digit_not_ws (hpostdig c hc)
  unfold sanitizeValue
  dsimp only
  rw [jsTrim_eq_self hws, scanChars_append, scanChars_sign config neg hnegOk,
    scanChars_append, scanChars_digit_run hmax T _ hTdig (fun _ => hTcond)]
  rw [scanChars, scanStep_decimal (isDecimalChar_dot config) htr rfl (by decide)]
  rw [scanChars_digit_run hmax post _ hpostdig
    (by intro hcontra; exact Bool.noConfusion hcontra)]
  dsimp only
  simp only [List.nil_append, List.append_assoc, List.singleton_append]
  have hTnd : '.' ∉ T := fun hm => digit_ne_dot (hTdig '.' hm) rfl
  rw [normalize_decimal_shape T post hTnd, hTfix]
  have happ : T ++ '.' :: post ≠ [] := by simp
  rw [isEmpty_false_of_ne happ]
  simp only [Bool.false_eq_true, if_false]

theorem sanitize_scan_zerosep_case (config : NumpadConfig)
    (hmax : config.maxDigits = none) (htr : config.allowDecimal.truthy = true)
    (h0 : isDecimalChar config '0' = true)
    (neg : Bool) (hnegOk : neg = true → config.allowNegative = true)
    (post : List Char) (hpostdig : ∀ c ∈ post, c.isDigit = true) :
    sanitizeValue (String.mk ((if neg then ['-'] else []) ++ ('0' :: '.' :: post))) config
      = String.mk ((if neg then ['-'] else []) ++ ('0' :: '.' :: post)) := by
  have hws : ∀ c ∈ (if neg then ['-'] else []) ++ ('0' :: '.' :: post),
      isJsWhitespace c = false := by
    intro c hc
    rcases List.mem_append.mp hc with hc | hc
    · cases neg
      · simp at hc
      · rw [List.mem_singleton.mp hc]
        decide
    · rcases List.mem_cons.mp hc with rfl | hc
      · decide
      · rcases List.mem_cons.mp hc with rfl | hc
        · decide
        · exact digit_not_ws (hpostdig c hc)
  unfold sanitizeValue
  dsimp only
  rw [jsTrim_eq_self hws, scanChars_append, scanChars_sign config neg hnegOk]
  rw [scanChars, scanStep_decimal h0 htr rfl (by decide)]
  rw [scanChars, scanStep_skip rfl (by decide) (by decide)]
  rw [scanChars_digit_run hmax post _ hpostdig
    (by intro hcontra; exact Bool.noConfusion hcontra)]
  dsimp only
  simp only [List.nil_append, List.singleton_append]
  rw [show normalizeLeadingZeros ('.' :: post) true = stripOrZero [] ++ '.' :: post from
    normalize_decimal_shape [] post (List.not_mem_nil '.')]
  rw [show stripOrZero ([] : List Char) = ['0'] from rfl]
  simp only [List.singleton_append]
  rw [show (('0' :: '.' :: post : List Char)).isEmpty = false from rfl]
  simp only [Bool.false_eq_true, if_false]

theorem sanitize_fix (config : NumpadConfig) (hmax : config.maxDigits = none)
    (st : ScanState) (hinv : ScanInv config st) :
    sanitizeValue (assembleSanitized st) config = assembleSanitized st := by
  obtain ⟨hneg, hrest⟩ := hinv
  unfold assembleSanitized
  dsimp only
  by_cases hempty : (normalizeLeadingZeros st.chars st.hasDecimal).isEmpty = true
  · rw [if_pos hempty]
    cases hni : st.isNegative
    · rw [if_neg (by simp)]
      rfl
    · rw [if_pos rfl]
      unfold sanitizeValue
      dsimp only
      rw [show jsTrim ("-" : String).data = ['-'] from rfl]
      rw [scanChars, scanStep_sign (hneg hni) rfl rfl]
      rfl
  · rw [if_neg hempty]
    by_cases hdec : st.hasDecimal = true
    · rw [hdec] at hrest ⊢
      simp only [if_true] at hrest
      obtain ⟨htr, pre, post, heq, hpre, hpost⟩ := hrest
      have hpredig : ∀ c ∈ pre, c.isDigit = true := fun c hc => (hpre c hc).1
      have hnd : '.' ∉ pre := fun hm => digit_ne_dot (hpredig '.' hm) rfl
      rw [heq, normalize_decimal_shape pre post hnd]
      by_cases hpre0 : pre = []
      · subst hpre0
        rw [show stripOrZero ([] : List Char) = ['0'] from rfl]
        by_cases h0 : isDecimalChar config '0' = true
        · rw [List.singleton_append]
          exact sanitize_scan_zerosep_case config hmax htr h0 st.isNegative hneg post hpost
        · have h0' : isDecimalChar config '0' = false := by
            revert h0; cases isDecimalChar config '0' <;> simp
          exact sanitize_scan_decimal_case config hmax htr st.isNegative hneg ['0'] post
            (by intro c hc; rw [List.mem_singleton.mp hc]; decide) hpost
            (fun c hc => by rw [List.mem_singleton.mp hc, h0', Bool.false_and])
            (by decide)
      · exact sanitize_scan_decimal_case config hmax htr st.isNegative hneg
          (stripOrZero pre) post (stripOrZero_digits hpredig) hpost
          (fun c hc => by
            rw [(hpre c (mem_stripOrZero_self hpre0 hpredig hc)).2, Bool.false_and])
          (stripOrZero_idem hpredig)
    · have hdec' : st.hasDecimal = false := by
        revert hdec; cases st.hasDecimal <;> simp
      rw [hdec'] at hrest hempty ⊢
      simp only [Bool.false_eq_true, if_false] at hrest
      have hchne : st.chars ≠ [] := by
        intro h
        rw [h] at hempty
        exact hempty rfl
      have hchdig : ∀ c ∈ st.chars, c.isDigit = true := fun c hc => (hrest c hc).1
      rw [normalize_plain st.chars hchne]
      exact sanitize_scan_plain_case config hmax st.isNegative hneg
        (stripOrZero st.chars) (stripOrZero_ne_nil st.chars) (stripOrZero_digits hchdig)
        (fun c hc => by
          have hc' := mem_stripOrZero_self hchne hchdig hc
          cases htt : config.allowDecimal.truthy
          · rw [Bool.and_false]
          · rw [(hrest c hc').2 htt, Bool.false_and])
        (stripOrZero_idem hchdig)

/-- C4 (corrected): `sanitizeValue` is idempotent for every configuration
whose `maxDigits` is null/undefined; the counterexample shows a second
sanitize can differ once `maxDigits` is set, because
`normalizeLeadingZeros` may insert a leading `0` that consumes the digit
budget on the rescan. -/
theorem sanitizeValue_idem_no_maxDigits (value : String) (config : NumpadConfig)
    (hmax : config.maxDigits = none) :
    sanitizeValue (sanitizeValue value config) config = sanitizeValue value config := by
  have hinv := scanChars_inv config (jsTrim value.data) ⟨[], false, false, 0⟩
    (scanInv_init config)
  rw [sanitizeValue_eq_assemble value config]
  exact sanitize_fix config hmax _ hinv

/-- C4 (witness): the amended idempotence at a concrete input under the
default configuration, whose `maxDigits` is null. -/
theorem sanitizeValue_idem_no_maxDigits_witness :
    defaultConfig.maxDigits = none ∧
    sanitizeValue (sanitizeValue "-007.50" defaultConfig) defaultConfig
      = sanitizeValue "-007.50" defaultConfig :=
  ⟨rfl, sanitizeValue_idem_no_maxDigits "-007.50" defaultConfig rfl⟩

end Numflux
